import Mathlib

/-!
# Verification of the QuizGame Quiz Session Engine and Question Pack Resolver

Shallow embedding of `assets/js/quiz-engine.js`, `assets/js/questions/index.js`
and `assets/js/question-packs.js` (plus the slice of `storage.js` state they
read), together with proofs about the spec's claims.

Modelling conventions:
* JS numbers that hold integral quantities are `Int` (indices and points can be
  negative or out of range in JS); counters that the code only ever increments
  from 0 are `Nat`.
* JS objects used as dictionaries (`incorrectResponses`, `hintsUsed`) are
  functions into `Option`/default values; `Map`s and plain-object tables are
  insertion-ordered association lists.
* JS truthiness (`x || d`) is modelled per type: `0`, `""`, `null`/`undefined`
  are falsy; arrays and objects are always truthy.
* `Math.random()`-driven code is parametrised by an oracle `rand : Nat → Nat`;
  the index drawn at loop counter `i` is `rand i % (i + 1)`, which ranges over
  exactly the values `Math.floor(Math.random() * (i + 1))` can take.
* Methods that mutate `this` become functions returning the updated state; a
  method that can throw returns an `Except` paired with the state as it is at
  the throw point, so "state unchanged on error" is a provable property, not an
  artifact of the encoding.
-/

/-- JS `n || d` for a non-negative integral number: `0` is falsy. -/
def jsOrNat (n d : Nat) : Nat := if n = 0 then d else n

/-- JS `i || d` for an integral number: `0` is falsy. -/
def jsOrInt (i d : Int) : Int := if i = 0 then d else i

/-- JS `s || d` for a string value: the empty string is falsy. -/
def jsOrStr (o : Option String) (d : String) : String :=
  match o with
  | some s => if s = "" then d else s
  | none => d

/-- JS `s || null` for a nullable string: `""`, `null` and `undefined` give `null`. -/
def jsOrStrNull (o : Option String) : Option String :=
  match o with
  | some s => if s = "" then none else some s
  | none => none

/-- JS `t || null` for a nullable integral number: `0`, `null`, `undefined` give `null`. -/
def jsOrIntNull (o : Option Int) : Option Int :=
  match o with
  | some t => if t = 0 then none else some t
  | none => none

/-- JS array access `l[i]` with a possibly negative index (`undefined` = `none`). -/
def jsGetElem (l : List α) (i : Int) : Option α :=
  if i < 0 then none else l.get? i.toNat

/-- JS `Array.prototype.indexOf`: first index of `a`, or `-1` when absent. -/
def jsIndexOf (l : List String) (a : String) : Int :=
  if a ∈ l then ((List.indexOf a l : Nat) : Int) else -1

/-- Association-list update with JS `Map.set` semantics: replace in place if the
key exists (keeping its position), otherwise append. -/
def mapSet (m : List (String × α)) (k : String) (v : α) : List (String × α) :=
  if m.any (fun e => e.1 = k) then
    m.map (fun e => if e.1 = k then (k, v) else e)
  else m ++ [(k, v)]

/-- Association-list lookup (`Map.get` / property read), first match. -/
def mapLookup (m : List (String × α)) (k : String) : Option α :=
  (m.find? (fun e => e.1 = k)).map (fun e => e.2)

/-- Lookup with a default; `lookupD m k []` is JS `m[k] || []` for arrays. -/
def lookupD (m : List (String × List α)) (k : String) : List α :=
  (mapLookup m k).getD []

/-! ## Fisher–Yates shuffle (`shuffleArray` in `questions/index.js`)

The JS loop runs `i` from `length-1` down to `1`, drawing
`j = Math.floor(Math.random() * (i + 1))` and swapping positions `i` and `j`.
The random draws are supplied by the oracle `rand`. -/

/-- Swap the elements at positions `i` and `j` (no-op when out of range). -/
def swapL (l : List α) (i j : Nat) : List α :=
  match l.get? i, l.get? j with
  | some x, some y => (l.set i y).set j x
  | _, _ => l

/-- The descending Fisher–Yates loop; the counter argument is the current `i`. -/
def fyGo (rand : Nat → Nat) (l : List α) : Nat → List α
  | 0 => l
  | k + 1 => fyGo rand (swapL l (k + 1) (rand (k + 1) % (k + 2))) k

/-- `shuffleArray(array)` from `questions/index.js`: Fisher–Yates on a copy. -/
def shuffleArray (rand : Nat → Nat) (l : List α) : List α :=
  fyGo rand l (l.length - 1)

theorem cons_set_perm : ∀ (t : List α) (k : Nat) (a y : α),
    t.get? k = some y → List.Perm (y :: t.set k a) (a :: t)
  | b :: t', 0, a, y, h => by
    simp only [List.get?_cons_zero, Option.some.injEq] at h
    rw [h]
    simpa using List.Perm.swap a y t'
  | b :: t', k + 1, a, y, h => by
    simp only [List.get?_cons_succ] at h
    have ih := cons_set_perm t' k a y h
    have h1 : List.Perm (y :: (b :: t').set (k + 1) a) (b :: y :: t'.set k a) := by
      simpa using List.Perm.swap b y (t'.set k a)
    have h2 : List.Perm (b :: y :: t'.set k a) (b :: a :: t') := List.Perm.cons b ih
    exact (h1.trans h2).trans (List.Perm.swap a b t')

theorem set_set_perm : ∀ (l : List α) (i j : Nat) (x y : α),
    l.get? i = some x → l.get? j = some y →
    List.Perm ((l.set i y).set j x) l
  | [], i, _, _, _, hi, _ => by simp at hi
  | a :: t, 0, 0, x, y, hx, hy => by
    simp only [List.get?_cons_zero, Option.some.injEq] at hx hy
    rw [← hx]
    simp
  | a :: t, 0, j + 1, x, y, hx, hy => by
    simp only [List.get?_cons_zero, Option.some.injEq, List.get?_cons_succ] at hx hy
    rw [← hx]
    simpa using cons_set_perm t j a y hy
  | a :: t, i + 1, 0, x, y, hx, hy => by
    simp only [List.get?_cons_zero, Option.some.injEq, List.get?_cons_succ] at hx hy
    rw [← hy]
    simpa using cons_set_perm t i a x hx
  | a :: t, i + 1, j + 1, x, y, hx, hy => by
    simp only [List.get?_cons_succ] at hx hy
    simpa using List.Perm.cons a (set_set_perm t i j x y hx hy)

theorem swapL_perm (l : List α) (i j : Nat) : List.Perm (swapL l i j) l := by
  unfold swapL
  cases hx : l.get? i with
  | none => simp
  | some x =>
    cases hy : l.get? j with
    | none => simp
    | some y => simpa using set_set_perm l i j x y hx hy

theorem fyGo_perm (rand : Nat → Nat) : ∀ (k : Nat) (l : List α), List.Perm (fyGo rand l k) l
  | 0, l => List.Perm.refl l
  | k + 1, l => by
    have h1 := fyGo_perm rand k (swapL l (k + 1) (rand (k + 1) % (k + 2)))
    exact h1.trans (swapL_perm l (k + 1) (rand (k + 1) % (k + 2)))

/-- `shuffleArray` returns a permutation of its input, for every random oracle. -/
theorem shuffleArray_perm (rand : Nat → Nat) (l : List α) :
    List.Perm (shuffleArray rand l) l :=
  fyGo_perm rand (l.length - 1) l

/-! ## Quiz Session Engine data model (`quiz-engine.js`)

`Question` carries exactly the fields the engine reads. `incorrectResponses`
is a JS object keyed by option index, modelled as a function into `Option`;
`points` may be absent (`question.points || getDefaultPoints(...)` supplies a
default). Provenance fields (`packId`, `packSource`) are stamped by the pack
layer and never read by the engine, so they are omitted here. -/

structure Question where
  id : String
  question : String
  options : List String
  correctIndex : Int
  correctResponse : String
  incorrectResponses : Int → Option String
  category : String
  difficulty : String
  points : Option Int
  hints : List String

/-- One entry of `this.answers`, as pushed by `submitAnswer`. -/
structure AnswerRecord where
  questionId : String
  selectedIndex : Int
  correctIndex : Int
  isCorrect : Bool
  points : Int
  question : String
  options : List String
  timeSpent : Int
deriving DecidableEq

/-- The engine's mutable fields (`this.*` after `reset()`). -/
structure QuizState where
  questions : List Question
  currentQuestionIndex : Nat
  score : Int
  totalPoints : Int
  correctCount : Nat
  answers : List AnswerRecord
  difficulty : Option String
  category : Option String
  hintsUsed : String → Nat
  startTime : Option Int
  endTime : Option Int

/-- Errors the engine throws (`throw new Error(...)` sites). -/
inductive QuizError
  /-- `No questions found for category: ${category}` — carries `this.category`
  (the requested category, with `'random'` already normalised to `null`). -/
  | noQuestions (category : Option String)
  /-- `No current question` -/
  | noCurrentQuestion
deriving DecidableEq

/-- `reset()`. -/
def resetState : QuizState :=
  { questions := []
    currentQuestionIndex := 0
    score := 0
    totalPoints := 0
    correctCount := 0
    answers := []
    difficulty := none
    category := none
    hintsUsed := fun _ => 0
    startTime := none
    endTime := none }

/-- `getDefaultPoints(difficulty)`: `pointsMap[difficulty] || 10`. -/
def getDefaultPoints (difficulty : String) : Int :=
  if difficulty = "easy" then 10
  else if difficulty = "medium" then 20
  else if difficulty = "hard" then 30
  else 10

/-- The effective point value `question.points || getDefaultPoints(question.difficulty)`
(JS `||`: an absent or zero `points` falls back to the difficulty default). -/
def effectivePoints (q : Question) : Int :=
  match q.points with
  | some p => if p = 0 then getDefaultPoints q.difficulty else p
  | none => getDefaultPoints q.difficulty

/-- `getCurrentQuestion()`: returns the current question, or `null` past the
end; as a side effect it updates `this.difficulty` to the current question's. -/
def getCurrentQuestion (s : QuizState) : Option Question × QuizState :=
  if s.currentQuestionIndex < s.questions.length then
    match s.questions.get? s.currentQuestionIndex with
    | some q => (some q, { s with difficulty := some q.difficulty })
    | none => (none, s)
  else (none, s)

/-- Result object returned by `submitAnswer`. -/
structure SubmitResult where
  isCorrect : Bool
  feedback : String
  points : Int
  correctIndex : Int
  selectedIndex : Int
deriving DecidableEq

/-- `submitAnswer(selectedIndex)`; `now` stands for `Date.now()`. Errors are
paired with the state at the throw point. -/
def submitAnswer (now : Int) (selectedIndex : Int) (s : QuizState) :
    Except QuizError SubmitResult × QuizState :=
  match getCurrentQuestion s with
  | (none, s') => (Except.error QuizError.noCurrentQuestion, s')
  | (some q, s') =>
    let isCorrect : Bool := selectedIndex = q.correctIndex
    let points : Int := if isCorrect then effectivePoints q else 0
    let s1 := if isCorrect then
        { s' with score := s'.score + points, correctCount := s'.correctCount + 1 }
      else s'
    let s2 := { s1 with totalPoints := s1.totalPoints + effectivePoints q }
    let entry : AnswerRecord :=
      { questionId := q.id
        selectedIndex := selectedIndex
        correctIndex := q.correctIndex
        isCorrect := isCorrect
        points := points
        question := q.question
        options := q.options
        timeSpent := now - ((jsOrIntNull s2.startTime).getD now) }
    let s3 := { s2 with answers := s2.answers ++ [entry] }
    let feedback := if isCorrect then q.correctResponse
      else jsOrStr (q.incorrectResponses selectedIndex) "Incorrect answer."
    (Except.ok
      { isCorrect := isCorrect
        feedback := feedback
        points := points
        correctIndex := q.correctIndex
        selectedIndex := selectedIndex }, s3)

/-- `nextQuestion()`: advance the pointer; returns whether more questions remain. -/
def nextQuestion (s : QuizState) : Bool × QuizState :=
  let s' := { s with currentQuestionIndex := s.currentQuestionIndex + 1 }
  (decide (s'.currentQuestionIndex < s'.questions.length), s')

/-- `getHint()`: next unrevealed hint for the current question, or `null`. -/
def getHint (s : QuizState) : Option String × QuizState :=
  match getCurrentQuestion s with
  | (none, s') => (none, s')
  | (some q, s') =>
    if q.hints.length = 0 then (none, s')
    else
      let used := s'.hintsUsed q.id
      if q.hints.length ≤ used then (none, s')
      else
        (q.hints.get? used,
         { s' with hintsUsed := fun id => if id = q.id then used + 1 else s'.hintsUsed id })

/-! ## Question sequencing (`startQuiz` and `getQuestions`)

`getQuestions(category, difficulty)` in `questions/index.js` reads the static
`questionRegistry` and, when present, `window.questionPackManager`'s merged
view; both are parameters here (an absent pack manager is `merged = []`). -/

def getQuestions (registry merged : List (String × List Question))
    (category : Option String) (difficulty : Option String) : List Question :=
  let base := match category with
    | some c => lookupD registry c
    | none => registry.flatMap (fun e => e.2)
  let withPacks := match category with
    | some c => base ++ lookupD merged c
    | none => base ++ merged.flatMap (fun e => e.2)
  match difficulty with
  | some d => withPacks.filter (fun q => q.difficulty = d)
  | none => withPacks

/-- `shuffleQuestionOptions(question)`: shuffle a cloned copy of `options`,
relocate `correctIndex` by `indexOf` of the original correct string, and remap
`incorrectResponses` keys through the new positions of the original options.
The JS operates on `{...question}` spreads, so the input record is untouched;
the embedding is correspondingly a pure function of `question`. -/
def shuffleQuestionOptions (rand : Nat → Nat) (question : Question) : Question :=
  let newOptions := shuffleArray rand question.options
  let correctAnswer := jsGetElem question.options question.correctIndex
  let newCorrectIndex : Int :=
    match correctAnswer with
    | some a => jsIndexOf newOptions a
    | none => -1
  let newIncorrectResponses :=
    remapGo question newOptions newCorrectIndex question.options.enum (fun _ => none)
  { question with
    options := newOptions
    correctIndex := newCorrectIndex
    incorrectResponses := newIncorrectResponses }
where
  /-- The `question.options.forEach((option, oldIndex) => ...)` loop body. -/
  remapGo (question : Question) (newOptions : List String) (newCorrectIndex : Int) :
      List (Nat × String) → (Int → Option String) → (Int → Option String)
    | [], m => m
    | (oldIndex, option) :: rest, m =>
      if (oldIndex : Int) = question.correctIndex then
        remapGo question newOptions newCorrectIndex rest m
      else
        let newIndex := jsIndexOf newOptions option
        if newIndex ≠ -1 ∧ newIndex ≠ newCorrectIndex then
          remapGo question newOptions newCorrectIndex rest
            (fun k => if k = newIndex then question.incorrectResponses (oldIndex : Int) else m k)
        else
          remapGo question newOptions newCorrectIndex rest m

/-- `'random'` is treated as `null` (all categories) by `startQuiz`. -/
def normalizeCategory : Option String → Option String
  | some "random" => none
  | c => c

/-- Index-aware map, for `questions.map(q => this.shuffleQuestionOptions(q))`
where each call consumes its own stream of random draws. -/
def mapIdxGo (f : Nat → α → β) : Nat → List α → List β
  | _, [] => []
  | n, a :: l => f n a :: mapIdxGo f (n + 1) l

/-- `startQuiz(category, shuffleQuestions, shuffleOptions)`. Randomness for the
three per-difficulty shuffles comes from `re`/`rm`/`rh`, and the option shuffle
of the question at position `i` from `ro i`. On success returns
`this.questions.length` and the started session; on the empty-sequence throw
the engine is left in its `reset()` state (with `category` set), producing no
usable session. The question-sequence assembly and the per-question option
shuffle are split out as the two code blocks they are in the source. -/
def buildQuestionSequence (re rm rh : Nat → Nat) (shuffleQuestions : Bool)
    (easyQuestions mediumQuestions hardQuestions : List Question) : List Question :=
  if shuffleQuestions then
    shuffleArray re easyQuestions ++ shuffleArray rm mediumQuestions ++
      shuffleArray rh hardQuestions
  else
    easyQuestions ++ mediumQuestions ++ hardQuestions

/-- `questions.map(q => this.shuffleQuestionOptions(q))` when requested. -/
def applyOptionShuffle (ro : Nat → Nat → Nat) (shuffleOptions : Bool)
    (questions : List Question) : List Question :=
  if shuffleOptions then mapIdxGo (fun i q => shuffleQuestionOptions (ro i) q) 0 questions
  else questions

def startQuiz (registry merged : List (String × List Question))
    (re rm rh : Nat → Nat) (ro : Nat → Nat → Nat) (now : Int)
    (category : Option String) (shuffleQuestions shuffleOptions : Bool) :
    Except QuizError (Nat × QuizState) :=
  let cat := normalizeCategory category
  let easyQuestions := getQuestions registry merged cat (some "easy")
  let mediumQuestions := getQuestions registry merged cat (some "medium")
  let hardQuestions := getQuestions registry merged cat (some "hard")
  let questions :=
    buildQuestionSequence re rm rh shuffleQuestions easyQuestions mediumQuestions hardQuestions
  if questions.length = 0 then
    Except.error (QuizError.noQuestions cat)
  else
    let questions' := applyOptionShuffle ro shuffleOptions questions
    Except.ok (questions'.length,
      { resetState with
        category := cat
        questions := questions'
        startTime := some now })

/-! ## Save / resume (`exportState` / `restoreState`) -/

/-- The per-question reference stored in a snapshot. -/
structure QuestionRef where
  id : String
  category : String
  difficulty : String
deriving DecidableEq

/-- The snapshot object built by `exportState()`. -/
structure SavedState where
  questions : List QuestionRef
  currentQuestionIndex : Nat
  score : Int
  totalPoints : Int
  correctCount : Nat
  answers : List AnswerRecord
  difficulty : Option String
  category : Option String
  hintsUsed : String → Nat
  startTime : Option Int
  timestamp : Int

/-- `exportState()`; `now` stands for `Date.now()`. -/
def exportState (now : Int) (s : QuizState) : SavedState :=
  { questions := s.questions.map (fun q =>
      { id := q.id, category := q.category, difficulty := q.difficulty })
    currentQuestionIndex := s.currentQuestionIndex
    score := s.score
    totalPoints := s.totalPoints
    correctCount := s.correctCount
    answers := s.answers
    difficulty := s.difficulty
    category := s.category
    hintsUsed := s.hintsUsed
    startTime := s.startTime
    timestamp := now }

/-- `restoreState(savedState, getQuestionById)`: overwrite the engine fields
with the snapshot's (JS `||` defaults), then rebuild `this.questions` by
resolving each reference; an unresolvable reference is skipped. -/
def restoreState (s : QuizState) (savedState : SavedState)
    (getQuestionById : String → String → String → Option Question) : QuizState :=
  { s with
    currentQuestionIndex := jsOrNat savedState.currentQuestionIndex 0
    score := jsOrInt savedState.score 0
    totalPoints := jsOrInt savedState.totalPoints 0
    correctCount := jsOrNat savedState.correctCount 0
    answers := savedState.answers
    difficulty := jsOrStrNull savedState.difficulty
    category := jsOrStrNull savedState.category
    hintsUsed := savedState.hintsUsed
    startTime := jsOrIntNull savedState.startTime
    questions := savedState.questions.filterMap (fun r =>
      getQuestionById r.id r.category r.difficulty) }

/-! ## Question Pack Resolver data model (`question-packs.js`)

Question payloads arriving from uploads or the cache are untrusted: every field
is optional until `validateQuestion` has checked it. Category values inside a
pack can be either a plain question array or a `{questions: [...]}` object
(`getMergedQuestions` branches on the shape); anything else is skipped with a
warning. -/

structure PackQuestion where
  id : Option String
  question : Option String
  options : Option (List String)
  correctIndex : Option Int
  category : Option String
  difficulty : Option String
  points : Option Int
  packId : Option String
  packSource : Option String
deriving DecidableEq

/-- The `{questions: [...]}` shape of a category value (other properties of the
object are never read by the resolver). -/
structure CatObj where
  questions : Option (List PackQuestion)
deriving DecidableEq

/-- A category value as stored in a pack table or payload. -/
inductive CategoryData
  | arr (qs : List PackQuestion)
  | obj (o : CatObj)
deriving DecidableEq

/-- `categories` object: category id → category value, in insertion order. -/
abbrev PackCategories := List (String × CategoryData)

/-- `packData.metadata` (only the fields the resolver reads). -/
structure PayloadMeta where
  author : Option String
  contactEmail : Option String
deriving DecidableEq

/-- An uploaded / cached pack payload, pre-validation. -/
structure PackPayload where
  packId : Option String
  packName : Option String
  categories : Option PackCategories
  metadata : Option PayloadMeta
  packSource : Option String
deriving DecidableEq

/-- A `packMetadata` table entry (fields the claims touch). -/
structure PackMeta where
  packId : String
  packSource : String
  enabled : Bool
  author : Option String
  contactEmail : Option String
deriving DecidableEq

/-- A cache entry as written by `cachePack` into `storageManager`. -/
structure CacheEntry where
  packId : String
  packData : PackPayload
  source : String
  cachedAt : Int
  expiresAt : Option Int
deriving DecidableEq

/-- The pack manager's tables plus the `storageManager` state it reads/writes
(cached packs and pack enable/disable preferences). -/
structure PMState where
  builtInPacks : List (String × PackCategories)
  securePacks : List (String × PackCategories)
  customPacks : List (String × PackCategories)
  packMetadata : List (String × PackMeta)
  cachedPacks : List (String × CacheEntry)
  packPreferences : List (String × Bool)
deriving DecidableEq

/-- Validation failures (`throw new Error(msg)` sites in the resolver). -/
inductive VErr
  | missingPackIdOrName
  | missingCategories
  | invalidEmail
  | categoryNoQuestions (categoryId : String)
  | missingField (field : String)
  | tooFewOptions
  | badCorrectIndex
  | badDifficulty
deriving DecidableEq

/-- The message text of each validation error, as in the source. -/
def vErrMessage : VErr → String
  | .missingPackIdOrName => "Pack must have packId and packName"
  | .missingCategories => "Pack must have categories object"
  | .invalidEmail => "Invalid contact email format"
  | .categoryNoQuestions cid => "Category " ++ cid ++ " must have questions array"
  | .missingField f => "Question missing required field: " ++ f
  | .tooFewOptions => "Question must have at least 2 options"
  | .badCorrectIndex => "correctIndex must be valid option index"
  | .badDifficulty => "difficulty must be easy, medium, or hard"

/-- `isValidEmail(email)`: the regex `/^[^\s@]+@[^\s@]+\.[^\s@]+$/` — no
whitespace, exactly one `@` with a non-empty local part, and a `.` in the
domain with at least one character on each side. -/
def isValidEmail (email : String) : Bool :=
  let cs := email.toList
  (cs.all fun c => ¬c.isWhitespace) &&
  (cs.count '@' = 1) &&
  (match cs.splitOn '@' with
   | [localPart, domain] =>
     localPart.length > 0 && domain.length > 0 &&
       ((domain.drop 1).dropLast.contains '.')
   | _ => false)

/-- `validateQuestion(question)`: required-field presence in source order, then
option count, `correctIndex` range and the difficulty enum. -/
def validateQuestion (q : PackQuestion) : Except VErr Unit :=
  if q.id.isNone then .error (.missingField "id")
  else if q.question.isNone then .error (.missingField "question")
  else if q.options.isNone then .error (.missingField "options")
  else if q.correctIndex.isNone then .error (.missingField "correctIndex")
  else if q.category.isNone then .error (.missingField "category")
  else if q.difficulty.isNone then .error (.missingField "difficulty")
  else if q.points.isNone then .error (.missingField "points")
  else
    let opts := q.options.getD []
    let ci := q.correctIndex.getD 0
    let d := q.difficulty.getD ""
    if opts.length < 2 then .error .tooFewOptions
    else if ci < 0 ∨ (opts.length : Int) ≤ ci then .error .badCorrectIndex
    else if ¬(d = "easy" ∨ d = "medium" ∨ d = "hard") then .error .badDifficulty
    else .ok ()

/-- The `categoryData.questions` read used during validation: an array-shaped
category value has no `questions` property, so it fails the array check. -/
def catQuestionsField : CategoryData → Option (List PackQuestion)
  | .arr _ => none
  | .obj o => o.questions

def validateQuestions : List PackQuestion → Except VErr Unit
  | [] => .ok ()
  | q :: rest =>
    match validateQuestion q with
    | .error e => .error e
    | .ok _ => validateQuestions rest

def validateCategories : PackCategories → Except VErr Unit
  | [] => .ok ()
  | (categoryId, categoryData) :: rest =>
    match catQuestionsField categoryData with
    | none => .error (.categoryNoQuestions categoryId)
    | some qs =>
      match validateQuestions qs with
      | .error e => .error e
      | .ok _ => validateCategories rest

/-- `validatePackStructure(packData)`. The per-question provenance stamping the
source interleaves with validation only mutates the payload object itself; it is
applied at store time by `stampPack` below, which is observationally the same
for the resolver's tables. -/
def validatePackStructure (p : PackPayload) : Except VErr Unit :=
  if jsOrStr p.packId "" = "" ∨ jsOrStr p.packName "" = "" then
    .error .missingPackIdOrName
  else if p.categories.isNone then .error .missingCategories
  else
    match (match p.metadata with
      | some md =>
        (match md.contactEmail with
         | some e =>
           if e ≠ "" ∧ ¬isValidEmail e then Except.error VErr.invalidEmail else .ok ()
         | none => .ok ())
      | none => Except.ok ()) with
    | .error e => .error e
    | .ok _ => validateCategories (p.categories.getD [])

/-- `question.packId = packData.packId; question.packSource = packData.packSource || 'upload'`. -/
def stampQuestion (pid : Option String) (src : String) (q : PackQuestion) : PackQuestion :=
  { q with packId := pid, packSource := some src }

def stampCategoryData (pid : Option String) (src : String) : CategoryData → CategoryData
  | .arr qs => .arr qs
  | .obj o => .obj { questions := o.questions.map (fun qs => qs.map (stampQuestion pid src)) }

def stampCategories (pid : Option String) (src : String) (cats : PackCategories) :
    PackCategories :=
  cats.map (fun e => (e.1, stampCategoryData pid src e.2))

/-- `cachePack(packId, packData, source)` (via `storageManager.saveCachedPack`):
api-sourced entries expire after 7 days, others never. -/
def cachePack (now : Int) (packId : String) (packData : PackPayload) (source : String)
    (s : PMState) : PMState :=
  { s with
    cachedPacks := mapSet s.cachedPacks packId
      ({ packId := packId
         packData := packData
         source := source
         cachedAt := now
         expiresAt := if source = "api" then some (now + 7 * 24 * 60 * 60 * 1000) else none }) }

/-- `removeCachedPack(packId)` (via `storageManager.removeCachedPack`). -/
def removeCachedPack (packId : String) (s : PMState) : PMState :=
  { s with cachedPacks := s.cachedPacks.filter (fun e => ¬(e.1 = packId)) }

/-- `packData.packId || 'custom-' + Date.now()`. -/
def genPackId (now : Int) (p : PackPayload) : String :=
  jsOrStr p.packId ("custom-" ++ toString now)

/-- `storageManager.getPackPreference(packId) !== false`. -/
def packPrefEnabled (s : PMState) (packId : String) : Bool :=
  ¬(mapLookup s.packPreferences packId = some false)

/-- `loadCustomPack(file)` after the `FileReader`/`JSON.parse` stage (the
payload is the parsed JSON): validate, then store into `customPacks`,
`packMetadata` and the cache. On a validation throw the tables are untouched
and the error is wrapped as `Invalid pack file: ...`. -/
def loadCustomPack (now : Int) (p : PackPayload) (s : PMState) :
    Except String PackPayload × PMState :=
  match validatePackStructure p with
  | .error e => (.error ("Invalid pack file: " ++ vErrMessage e), s)
  | .ok _ =>
    let packId := genPackId now p
    let src := jsOrStr p.packSource "upload"
    let stamped := { p with categories := (p.categories.map (stampCategories p.packId src)) }
    let s1 := { s with
      customPacks := mapSet s.customPacks packId (stamped.categories.getD [])
      packMetadata := mapSet s.packMetadata packId
        { packId := packId
          packSource := "upload"
          enabled := true
          author := jsOrStrNull (p.metadata.bind (fun m => m.author))
          contactEmail := jsOrStrNull (p.metadata.bind (fun m => m.contactEmail)) } }
    let s2 := cachePack now packId stamped "upload" s1
    (.ok stamped, s2)

/-! ## The merged view (`getMergedQuestions`)

The source method reads `checkAuthentication()` (the sessionStorage OAuth token)
itself; the embedding takes the resulting boolean as the `isAuthenticated`
parameter. -/

/-- The questions contributed by one category value (the shape dispatch inside
`mergePack`): a plain array, or the `questions` property; an invalid shape is
skipped with a warning. -/
def extractQuestions : CategoryData → Option (List PackQuestion)
  | .arr qs => some qs
  | .obj o => o.questions

/-- One iteration of the `for ([categoryId, categoryData] of entries)` loop in
`mergePack`: create the key if missing, then append the questions (the source
pushes only non-empty arrays, which appends the same elements). -/
def mergeEntry (merged : List (String × List PackQuestion)) (categoryId : String)
    (categoryData : CategoryData) : List (String × List PackQuestion) :=
  let ensured := if merged.any (fun e => e.1 = categoryId) then merged
    else merged ++ [(categoryId, [])]
  match extractQuestions categoryData with
  | none => ensured
  | some qs =>
    if qs.length = 0 then ensured
    else ensured.map (fun e => if e.1 = categoryId then (e.1, e.2 ++ qs) else e)

/-- `mergePack(packCategories)`. -/
def mergePack (merged : List (String × List PackQuestion)) (packCategories : PackCategories) :
    List (String × List PackQuestion) :=
  packCategories.foldl (fun m e => mergeEntry m e.1 e.2) merged

/-- Whether a pack participates in the merge: metadata present and enabled. -/
def packEnabled (s : PMState) (packId : String) : Bool :=
  match mapLookup s.packMetadata packId with
  | some md => md.enabled
  | none => false

/-- One of the three `for ([packId, packCategories] of table)` merge loops. -/
def mergeTable (s : PMState) (merged : List (String × List PackQuestion))
    (table : List (String × PackCategories)) : List (String × List PackQuestion) :=
  table.foldl (fun m e => if packEnabled s e.1 then mergePack m e.2 else m) merged

/-- `getMergedQuestions()`: built-in packs, then secure packs (authenticated
only), then custom packs. -/
def getMergedQuestions (isAuthenticated : Bool) (s : PMState) :
    List (String × List PackQuestion) :=
  let m1 := mergeTable s [] s.builtInPacks
  let m2 := if isAuthenticated then mergeTable s m1 s.securePacks else m1
  mergeTable s m2 s.customPacks

/-! ## Startup cache loading (`loadCachedPacks`)

The whole entry loop sits inside one `try`; a validation throw aborts the loop
(later entries are not processed) and the states reached so far persist. -/

/-- JS `cached.expiresAt && Date.now() > cached.expiresAt`. -/
def cacheExpired (now : Int) (c : CacheEntry) : Bool :=
  match c.expiresAt with
  | some e => ¬(e = 0) ∧ now > e
  | none => false

/-- One iteration of the `for (const cached of cachedPacks)` loop body:
`none` means the iteration threw (a validation error escaping to the `catch`
that wraps the whole loop), otherwise the state after the iteration. -/
def cacheEntryStep (now : Int) (isAuthenticated : Bool) (packId : String)
    (cached : CacheEntry) (s : PMState) : Option PMState :=
  if cacheExpired now cached then
    some (removeCachedPack packId s)
  else if cached.source = "api" ∧ ¬isAuthenticated then
    some s
  else
    match validatePackStructure cached.packData with
    | .error _ => none
    | .ok _ =>
      let stamped := { cached.packData with
        categories := cached.packData.categories.map
          (stampCategories cached.packData.packId (jsOrStr cached.packData.packSource "upload")) }
      if cached.source = "api" then
        if isAuthenticated then
          some { s with
            securePacks := mapSet s.securePacks packId (stamped.categories.getD [])
            packMetadata := mapSet s.packMetadata packId
              { packId := packId
                packSource := cached.source
                enabled := packPrefEnabled s packId
                author := stamped.metadata.bind (fun m => m.author)
                contactEmail := stamped.metadata.bind (fun m => m.contactEmail) } }
        else
          some s
      else if cached.source = "upload" then
        some { s with
          customPacks := mapSet s.customPacks packId (stamped.categories.getD [])
          packMetadata := mapSet s.packMetadata packId
            { packId := packId
              packSource := cached.source
              enabled := packPrefEnabled s packId
              author := stamped.metadata.bind (fun m => m.author)
              contactEmail := stamped.metadata.bind (fun m => m.contactEmail) } }
      else
        some s

/-- The entry loop; an iteration that throws aborts the loop (the `catch` only
warns), keeping the state reached so far. -/
def processCachedEntries (now : Int) (isAuthenticated : Bool) :
    List (String × CacheEntry) → PMState → PMState
  | [], s => s
  | (packId, cached) :: rest, s =>
    match cacheEntryStep now isAuthenticated packId cached s with
    | none => s
    | some s2 => processCachedEntries now isAuthenticated rest s2

/-- `loadCachedPacks()`: read all cache entries and process them in order. -/
def loadCachedPacks (now : Int) (isAuthenticated : Bool) (s : PMState) : PMState :=
  processCachedEntries now isAuthenticated s.cachedPacks s

/-! ## General lemmas about the embedded operations -/

theorem shuffleArray_mem (rand : Nat → Nat) (l : List α) (a : α) :
    a ∈ shuffleArray rand l ↔ a ∈ l :=
  (shuffleArray_perm rand l).mem_iff

theorem shuffleArray_length (rand : Nat → Nat) (l : List α) :
    (shuffleArray rand l).length = l.length :=
  (shuffleArray_perm rand l).length_eq

theorem mapIdxGo_length (f : Nat → α → β) : ∀ (n : Nat) (l : List α),
    (mapIdxGo f n l).length = l.length
  | _, [] => rfl
  | n, _ :: l => by simp [mapIdxGo, mapIdxGo_length f (n + 1) l]

theorem mapIdxGo_append (f : Nat → α → β) : ∀ (n : Nat) (l₁ l₂ : List α),
    mapIdxGo f n (l₁ ++ l₂) = mapIdxGo f n l₁ ++ mapIdxGo f (n + l₁.length) l₂
  | _, [], _ => by simp [mapIdxGo]
  | n, a :: l₁, l₂ => by
    simp only [List.cons_append, mapIdxGo, List.length_cons]
    rw [List.append_eq, mapIdxGo_append f (n + 1) l₁ l₂]
    have h : n + 1 + l₁.length = n + (l₁.length + 1) := by omega
    rw [h]

theorem mapIdxGo_mem (f : Nat → α → β) : ∀ (n : Nat) (l : List α) (b : β),
    b ∈ mapIdxGo f n l → ∃ i a, a ∈ l ∧ b = f i a
  | _, [], _, h => by simp [mapIdxGo] at h
  | n, a :: l, b, h => by
    simp only [mapIdxGo, List.mem_cons] at h
    rcases h with h | h
    · exact ⟨n, a, List.mem_cons_self a l, h⟩
    · obtain ⟨i, a', ha', hb⟩ := mapIdxGo_mem f (n + 1) l b h
      exact ⟨i, a', List.mem_cons_of_mem a ha', hb⟩

/-- Filtering by difficulty yields only questions of that difficulty. -/
theorem getQuestions_difficulty (registry merged : List (String × List Question))
    (category : Option String) (d : String) (q : Question)
    (h : q ∈ getQuestions registry merged category (some d)) : q.difficulty = d := by
  unfold getQuestions at h
  simp only [List.mem_filter, decide_eq_true_eq] at h
  exact h.2

/-- `shuffleQuestionOptions` only rewrites `options`, `correctIndex` and
`incorrectResponses`; every other field survives. -/
theorem shuffleQuestionOptions_fields (rand : Nat → Nat) (q : Question) :
    (shuffleQuestionOptions rand q).id = q.id ∧
    (shuffleQuestionOptions rand q).question = q.question ∧
    (shuffleQuestionOptions rand q).correctResponse = q.correctResponse ∧
    (shuffleQuestionOptions rand q).category = q.category ∧
    (shuffleQuestionOptions rand q).difficulty = q.difficulty ∧
    (shuffleQuestionOptions rand q).points = q.points ∧
    (shuffleQuestionOptions rand q).hints = q.hints := by
  unfold shuffleQuestionOptions
  exact ⟨rfl, rfl, rfl, rfl, rfl, rfl, rfl⟩

/-- The difficulty ordering easy < medium < hard (anything else ranks last). -/
def difficultyRank (d : String) : Nat :=
  if d = "easy" then 0 else if d = "medium" then 1 else if d = "hard" then 2 else 3

theorem pairwise_three_blocks (l₁ l₂ l₃ : List String)
    (h₁ : ∀ a ∈ l₁, a = "easy") (h₂ : ∀ a ∈ l₂, a = "medium")
    (h₃ : ∀ a ∈ l₃, a = "hard") :
    (l₁ ++ l₂ ++ l₃).Pairwise (fun a b => difficultyRank a ≤ difficultyRank b) := by
  rw [List.append_assoc, List.pairwise_append]
  refine ⟨List.pairwise_of_forall_mem_list
    (fun a ha b hb => le_of_eq (by rw [h₁ _ ha, h₁ _ hb])), ?_, ?_⟩
  · rw [List.pairwise_append]
    refine ⟨List.pairwise_of_forall_mem_list
      (fun a ha b hb => le_of_eq (by rw [h₂ _ ha, h₂ _ hb])),
      List.pairwise_of_forall_mem_list
      (fun a ha b hb => le_of_eq (by rw [h₃ _ ha, h₃ _ hb])), ?_⟩
    intro a ha b hb
    rw [h₂ _ ha, h₃ _ hb]
    simp [difficultyRank]
  · intro a ha b hb
    rcases List.mem_append.mp hb with hb | hb
    · rw [h₁ _ ha, h₂ _ hb]; simp [difficultyRank]
    · rw [h₁ _ ha, h₃ _ hb]; simp [difficultyRank]

theorem buildQuestionSequence_split (re rm rh : Nat → Nat) (sq : Bool)
    (E M H : List Question) :
    ∃ A B C, buildQuestionSequence re rm rh sq E M H = A ++ B ++ C
      ∧ List.Perm A E ∧ List.Perm B M ∧ List.Perm C H := by
  by_cases hsq : sq = true
  · exact ⟨_, _, _, by simp [buildQuestionSequence, hsq],
      shuffleArray_perm re E, shuffleArray_perm rm M, shuffleArray_perm rh H⟩
  · simp only [Bool.not_eq_true] at hsq
    exact ⟨E, M, H, by simp [buildQuestionSequence, hsq],
      List.Perm.refl E, List.Perm.refl M, List.Perm.refl H⟩

theorem applyOptionShuffle_split (ro : Nat → Nat → Nat) (so : Bool)
    (A B C : List Question) :
    ∃ A' B' C', applyOptionShuffle ro so (A ++ B ++ C) = A' ++ B' ++ C'
      ∧ A'.length = A.length ∧ B'.length = B.length ∧ C'.length = C.length
      ∧ (∀ q ∈ A', ∃ q₀ ∈ A, q.difficulty = q₀.difficulty)
      ∧ (∀ q ∈ B', ∃ q₀ ∈ B, q.difficulty = q₀.difficulty)
      ∧ (∀ q ∈ C', ∃ q₀ ∈ C, q.difficulty = q₀.difficulty) := by
  by_cases hso : so = true
  · refine ⟨mapIdxGo (fun i q => shuffleQuestionOptions (ro i) q) 0 A,
      mapIdxGo (fun i q => shuffleQuestionOptions (ro i) q) (0 + A.length) B,
      mapIdxGo (fun i q => shuffleQuestionOptions (ro i) q) (0 + A.length + B.length) C,
      ?_, mapIdxGo_length _ _ _, mapIdxGo_length _ _ _, mapIdxGo_length _ _ _, ?_, ?_, ?_⟩
    · simp only [applyOptionShuffle, hso, if_pos]
      rw [List.append_assoc, mapIdxGo_append, mapIdxGo_append, List.append_assoc]
    all_goals
      intro q hq
      obtain ⟨i, q₀, hq₀, rfl⟩ := mapIdxGo_mem _ _ _ _ hq
      exact ⟨q₀, hq₀, (shuffleQuestionOptions_fields (ro i) q₀).2.2.2.2.1⟩
  · simp only [Bool.not_eq_true] at hso
    exact ⟨A, B, C, by simp [applyOptionShuffle, hso],
      rfl, rfl, rfl,
      fun q hq => ⟨q, hq, rfl⟩, fun q hq => ⟨q, hq, rfl⟩, fun q hq => ⟨q, hq, rfl⟩⟩

/-- **C1.** For every `startQuiz(category, shuffleQuestions, shuffleOptions)`
call over a merged question view: a successfully built session's question list
is the concatenation of an easy, a medium and a hard segment in that fixed
order (in particular `questions.map(q => q.difficulty)` is non-decreasing under
easy < medium < hard, whether or not shuffling is requested), and the call
fails with the no-questions error naming the requested category (with
`'random'` normalised to `null`, as the thrown message interpolates
`this.category`) exactly when the combined sequence is empty. -/
theorem startQuiz_difficulty_progression
    (registry merged : List (String × List Question))
    (re rm rh : Nat → Nat) (ro : Nat → Nat → Nat) (now : Int)
    (category : Option String) (shuffleQuestions shuffleOptions : Bool) :
    (∀ n s, startQuiz registry merged re rm rh ro now category shuffleQuestions shuffleOptions
        = Except.ok (n, s) →
      (∃ l₁ l₂ l₃, s.questions = l₁ ++ l₂ ++ l₃
        ∧ (∀ q ∈ l₁, q.difficulty = "easy")
        ∧ (∀ q ∈ l₂, q.difficulty = "medium")
        ∧ (∀ q ∈ l₃, q.difficulty = "hard")
        ∧ l₁.length =
            (getQuestions registry merged (normalizeCategory category) (some "easy")).length
        ∧ l₂.length =
            (getQuestions registry merged (normalizeCategory category) (some "medium")).length
        ∧ l₃.length =
            (getQuestions registry merged (normalizeCategory category) (some "hard")).length)
      ∧ (s.questions.map (fun q => q.difficulty)).Pairwise
          (fun a b => difficultyRank a ≤ difficultyRank b)
      ∧ n = s.questions.length ∧ s.questions ≠ [])
    ∧ ((getQuestions registry merged (normalizeCategory category) (some "easy") = []
        ∧ getQuestions registry merged (normalizeCategory category) (some "medium") = []
        ∧ getQuestions registry merged (normalizeCategory category) (some "hard") = [])
       ↔ startQuiz registry merged re rm rh ro now category shuffleQuestions shuffleOptions
          = Except.error (QuizError.noQuestions (normalizeCategory category))) := by
  obtain ⟨A, B, C, hbuild, hAE, hBM, hCH⟩ := buildQuestionSequence_split re rm rh
    shuffleQuestions
    (getQuestions registry merged (normalizeCategory category) (some "easy"))
    (getQuestions registry merged (normalizeCategory category) (some "medium"))
    (getQuestions registry merged (normalizeCategory category) (some "hard"))
  obtain ⟨A', B', C', happly, hlA, hlB, hlC, hdA, hdB, hdC⟩ :=
    applyOptionShuffle_split ro shuffleOptions A B C
  constructor
  · intro n s hok
    rw [startQuiz, hbuild] at hok
    by_cases hlen : (A ++ B ++ C).length = 0
    · rw [if_pos hlen] at hok
      exact absurd hok (by simp)
    · rw [if_neg hlen] at hok
      have hs : s.questions = A' ++ B' ++ C' ∧ n = (applyOptionShuffle ro shuffleOptions
          (A ++ B ++ C)).length := by
        have := hok
        simp only [Except.ok.injEq, Prod.mk.injEq] at this
        refine ⟨?_, this.1.symm⟩
        rw [← this.2, happly]
      have hA'e : ∀ q ∈ A', q.difficulty = "easy" := by
        intro q hq
        obtain ⟨q₀, hq₀, hd⟩ := hdA q hq
        rw [hd]
        exact getQuestions_difficulty registry merged (normalizeCategory category) "easy" q₀
          (hAE.mem_iff.mp hq₀)
      have hB'e : ∀ q ∈ B', q.difficulty = "medium" := by
        intro q hq
        obtain ⟨q₀, hq₀, hd⟩ := hdB q hq
        rw [hd]
        exact getQuestions_difficulty registry merged (normalizeCategory category) "medium" q₀
          (hBM.mem_iff.mp hq₀)
      have hC'e : ∀ q ∈ C', q.difficulty = "hard" := by
        intro q hq
        obtain ⟨q₀, hq₀, hd⟩ := hdC q hq
        rw [hd]
        exact getQuestions_difficulty registry merged (normalizeCategory category) "hard" q₀
          (hCH.mem_iff.mp hq₀)
      refine ⟨⟨A', B', C', hs.1, hA'e, hB'e, hC'e,
        by rw [hlA, hAE.length_eq], by rw [hlB, hBM.length_eq], by rw [hlC, hCH.length_eq]⟩,
        ?_, ?_, ?_⟩
      · rw [hs.1]
        simp only [List.map_append]
        refine pairwise_three_blocks _ _ _ ?_ ?_ ?_ <;>
          intro a ha <;> obtain ⟨q, hq, rfl⟩ := List.mem_map.mp ha
        · exact hA'e q hq
        · exact hB'e q hq
        · exact hC'e q hq
      · rw [hs.2, happly, hs.1]
      · intro hempty
        apply hlen
        have h1 : (A' ++ B' ++ C').length = 0 := by rw [← hs.1, hempty]; rfl
        simp only [List.length_append] at h1 ⊢
        omega
  · constructor
    · rintro ⟨he, hm, hh⟩
      rw [startQuiz, hbuild]
      have : (A ++ B ++ C).length = 0 := by
        simp only [List.length_append, hAE.length_eq, hBM.length_eq, hCH.length_eq,
          he, hm, hh, List.length_nil]
      rw [if_pos this]
    · intro herr
      rw [startQuiz, hbuild] at herr
      by_cases hlen : (A ++ B ++ C).length = 0
      · simp only [List.length_append] at hlen
        refine ⟨?_, ?_, ?_⟩
        · rw [← List.length_eq_zero, ← hAE.length_eq]; omega
        · rw [← List.length_eq_zero, ← hBM.length_eq]; omega
        · rw [← List.length_eq_zero, ← hCH.length_eq]; omega
      · rw [if_neg hlen] at herr
        exact absurd herr (by simp)

/-! ## Traces of engine operations -/

/-- The engine operations a running session receives from the UI. -/
inductive EngineAction
  | submit (now : Int) (selectedIndex : Int)
  | advance
  | hint

/-- Apply one engine operation to the state (discarding the returned value). -/
def stepAction (s : QuizState) : EngineAction → QuizState
  | .submit now idx => (submitAnswer now idx s).2
  | .advance => (nextQuestion s).2
  | .hint => (getHint s).2

def runActions (s : QuizState) (acts : List EngineAction) : QuizState :=
  acts.foldl stepAction s

/-- `sum(answers[i].pointsAwarded)` (`points` in the stored answer entries). -/
def sumPoints (answers : List AnswerRecord) : Int :=
  (answers.map (fun a => a.points)).sum

theorem getCurrentQuestion_preserves (s : QuizState) :
    (getCurrentQuestion s).2.questions = s.questions
    ∧ (getCurrentQuestion s).2.currentQuestionIndex = s.currentQuestionIndex
    ∧ (getCurrentQuestion s).2.score = s.score
    ∧ (getCurrentQuestion s).2.totalPoints = s.totalPoints
    ∧ (getCurrentQuestion s).2.correctCount = s.correctCount
    ∧ (getCurrentQuestion s).2.answers = s.answers
    ∧ (getCurrentQuestion s).2.hintsUsed = s.hintsUsed
    ∧ (getCurrentQuestion s).2.startTime = s.startTime
    ∧ (getCurrentQuestion s).2.category = s.category := by
  unfold getCurrentQuestion
  split
  · split <;> simp
  · simp

theorem getCurrentQuestion_fst (s : QuizState) (q : Question) :
    (getCurrentQuestion s).1 = some q ↔ s.questions.get? s.currentQuestionIndex = some q := by
  unfold getCurrentQuestion
  by_cases hi : s.currentQuestionIndex < s.questions.length
  · rw [if_pos hi]
    cases hg : s.questions.get? s.currentQuestionIndex <;> simp
  · rw [if_neg hi]
    have hn : s.questions.get? s.currentQuestionIndex = none :=
      List.get?_eq_none.mpr (Nat.le_of_not_lt hi)
    rw [hn]

theorem getCurrentQuestion_some_mem (s : QuizState) (q : Question)
    (h : (getCurrentQuestion s).1 = some q) : q ∈ s.questions :=
  List.get?_mem ((getCurrentQuestion_fst s q).mp h)

set_option maxRecDepth 8192 in
/-- Unfolded description of a successful `submitAnswer` step: the returned
result object, and the exact effect on every scoring-related field. -/
theorem submitAnswer_step (now idx : Int) (s : QuizState) (q : Question)
    (h : (getCurrentQuestion s).1 = some q) :
    (submitAnswer now idx s).1 = Except.ok
      { isCorrect := decide (idx = q.correctIndex)
        feedback := if idx = q.correctIndex then q.correctResponse
          else jsOrStr (q.incorrectResponses idx) "Incorrect answer."
        points := if idx = q.correctIndex then effectivePoints q else 0
        correctIndex := q.correctIndex
        selectedIndex := idx }
    ∧ (submitAnswer now idx s).2.score =
        s.score + (if idx = q.correctIndex then effectivePoints q else 0)
    ∧ (submitAnswer now idx s).2.totalPoints = s.totalPoints + effectivePoints q
    ∧ (submitAnswer now idx s).2.correctCount =
        s.correctCount + (if idx = q.correctIndex then 1 else 0)
    ∧ (submitAnswer now idx s).2.answers = s.answers ++
        [{ questionId := q.id
           selectedIndex := idx
           correctIndex := q.correctIndex
           isCorrect := decide (idx = q.correctIndex)
           points := if idx = q.correctIndex then effectivePoints q else 0
           question := q.question
           options := q.options
           timeSpent := now - ((jsOrIntNull s.startTime).getD now) }]
    ∧ (submitAnswer now idx s).2.questions = s.questions
    ∧ (submitAnswer now idx s).2.currentQuestionIndex = s.currentQuestionIndex
    ∧ (submitAnswer now idx s).2.startTime = s.startTime := by
  rcases hgc : getCurrentQuestion s with ⟨oq, s2⟩
  have hoq : oq = some q := by rw [hgc] at h; exact h
  subst hoq
  obtain ⟨hq, hidx, hsc, htp, hcc, hans, hhints, hst, hcat⟩ := getCurrentQuestion_preserves s
  rw [hgc] at hq hidx hsc htp hcc hans hhints hst hcat
  dsimp only at hq hidx hsc htp hcc hans hhints hst hcat
  simp only [submitAnswer, hgc]
  by_cases hc : idx = q.correctIndex <;>
    simp [hc, hsc, htp, hcc, hans, hq, hidx, hst]

/-- `submitAnswer` on an exhausted session: the error, and no mutation at all. -/
theorem submitAnswer_no_question (now idx : Int) (s : QuizState)
    (h : (getCurrentQuestion s).1 = none) :
    submitAnswer now idx s = (Except.error QuizError.noCurrentQuestion, s) := by
  rcases hgc : getCurrentQuestion s with ⟨oq, s2⟩
  have hoq : oq = none := by rw [hgc] at h; exact h
  subst hoq
  have hs2 : s2 = s := by
    unfold getCurrentQuestion at hgc
    by_cases hi : s.currentQuestionIndex < s.questions.length
    · rw [if_pos hi] at hgc
      cases hg : s.questions.get? s.currentQuestionIndex with
      | none =>
        rw [hg] at hgc
        injection hgc with h1 h2
        exact h2.symm
      | some q' => rw [hg] at hgc; simp at hgc
    · rw [if_neg hi] at hgc
      injection hgc with h1 h2
      exact h2.symm
  subst hs2
  simp only [submitAnswer, hgc]

/-- `nextQuestion` changes only the question pointer. -/
theorem nextQuestion_preserves (s : QuizState) :
    (nextQuestion s).2 = { s with currentQuestionIndex := s.currentQuestionIndex + 1 } := rfl

/-- `getHint` never touches the scoring fields, the answer log or the questions. -/
theorem getHint_preserves (s : QuizState) :
    (getHint s).2.questions = s.questions
    ∧ (getHint s).2.currentQuestionIndex = s.currentQuestionIndex
    ∧ (getHint s).2.score = s.score
    ∧ (getHint s).2.totalPoints = s.totalPoints
    ∧ (getHint s).2.correctCount = s.correctCount
    ∧ (getHint s).2.answers = s.answers := by
  obtain ⟨hq, hidx, hsc, htp, hcc, hans, _hhints, _hst, _hcat⟩ := getCurrentQuestion_preserves s
  rcases hgc : getCurrentQuestion s with ⟨oq, s2⟩
  rw [hgc] at hq hidx hsc htp hcc hans
  dsimp only at hq hidx hsc htp hcc hans
  cases oq with
  | none => simp only [getHint, hgc]; exact ⟨hq, hidx, hsc, htp, hcc, hans⟩
  | some q =>
    simp only [getHint, hgc]
    by_cases h0 : q.hints.length = 0
    · simp only [h0, if_pos, reduceIte]
      exact ⟨hq, hidx, hsc, htp, hcc, hans⟩
    · rw [if_neg h0]
      by_cases h1 : q.hints.length ≤ s2.hintsUsed q.id
      · rw [if_pos h1]
        exact ⟨hq, hidx, hsc, htp, hcc, hans⟩
      · rw [if_neg h1]
        exact ⟨hq, hidx, hsc, htp, hcc, hans⟩

/-- One engine operation keeps the question list and all scoring invariants. -/
theorem stepAction_invariant (s : QuizState) (a : EngineAction)
    (hq : ∀ q ∈ s.questions, 0 ≤ effectivePoints q) :
    (stepAction s a).questions = s.questions
    ∧ (s.score = sumPoints s.answers → (stepAction s a).score = sumPoints (stepAction s a).answers)
    ∧ (s.score ≤ s.totalPoints → (stepAction s a).score ≤ (stepAction s a).totalPoints)
    ∧ s.score ≤ (stepAction s a).score
    ∧ s.totalPoints ≤ (stepAction s a).totalPoints
    ∧ s.correctCount ≤ (stepAction s a).correctCount := by
  cases a with
  | submit now idx =>
    cases hgc : (getCurrentQuestion s).1 with
    | none =>
      have hnone := submitAnswer_no_question now idx s hgc
      simp [stepAction, hnone]
    | some q =>
      obtain ⟨hres, hsc, htp, hcc, hans, hqs, hidx, hst⟩ := submitAnswer_step now idx s q hgc
      have hq0 : 0 ≤ effectivePoints q := hq q (getCurrentQuestion_some_mem s q hgc)
      have hpts : (0:Int) ≤ (if idx = q.correctIndex then effectivePoints q else 0) := by
        by_cases hc : idx = q.correctIndex <;> simp [hc, hq0]
      have hpts2 : (if idx = q.correctIndex then effectivePoints q else 0) ≤ effectivePoints q := by
        by_cases hc : idx = q.correctIndex <;> simp [hc, hq0]
      refine ⟨by simp [stepAction, hqs], ?_, ?_, ?_, ?_, ?_⟩
      · intro hsum
        simp [stepAction, hsc, hans, sumPoints, hsum]
      · intro hle
        simp only [stepAction, hsc, htp]
        omega
      · simp only [stepAction, hsc]
        omega
      · simp only [stepAction, htp]
        omega
      · simp only [stepAction, hcc]
        by_cases hc : idx = q.correctIndex <;> simp [hc]
  | advance =>
    simp [stepAction, nextQuestion_preserves]
  | hint =>
    obtain ⟨h1, h2, h3, h4, h5, h6⟩ := getHint_preserves s
    simp [stepAction, h1, h3, h4, h5, h6]

theorem runActions_cons (s : QuizState) (a : EngineAction) (rest : List EngineAction) :
    runActions s (a :: rest) = runActions (stepAction s a) rest := rfl

theorem runActions_invariant (acts : List EngineAction) (s₀ : QuizState)
    (hq : ∀ q ∈ s₀.questions, 0 ≤ effectivePoints q)
    (hsum : s₀.score = sumPoints s₀.answers) (hle : s₀.score ≤ s₀.totalPoints) :
    (runActions s₀ acts).questions = s₀.questions
    ∧ (runActions s₀ acts).score = sumPoints (runActions s₀ acts).answers
    ∧ (runActions s₀ acts).score ≤ (runActions s₀ acts).totalPoints
    ∧ s₀.score ≤ (runActions s₀ acts).score
    ∧ s₀.totalPoints ≤ (runActions s₀ acts).totalPoints
    ∧ s₀.correctCount ≤ (runActions s₀ acts).correctCount := by
  induction acts generalizing s₀ with
  | nil => exact ⟨rfl, hsum, hle, le_refl _, le_refl _, le_refl _⟩
  | cons a rest ih =>
    obtain ⟨h1, h2, h3, h4, h5, h6⟩ := stepAction_invariant s₀ a hq
    have hq' : ∀ q ∈ (stepAction s₀ a).questions, 0 ≤ effectivePoints q := by
      rw [h1]; exact hq
    obtain ⟨g1, g2, g3, g4, g5, g6⟩ := ih (stepAction s₀ a) hq' (h2 hsum) (h3 hle)
    rw [runActions_cons]
    exact ⟨g1.trans h1, g2, g3, le_trans h4 g4, le_trans h5 g5, le_trans h6 g6⟩

/-- The running-total invariants of claim C2, relating a session's start state
`s₀` to a later state `S` of the same session. -/
def ScoringInvariants (s₀ S : QuizState) : Prop :=
  S.score = sumPoints S.answers
  ∧ S.score ≤ S.totalPoints
  ∧ s₀.score ≤ S.score
  ∧ s₀.totalPoints ≤ S.totalPoints
  ∧ s₀.correctCount ≤ S.correctCount

/-- The per-call scoring rule of claim C2 at a state `S`: `isCorrect` compares
the selected and correct indices, the points awarded are the question's
effective points if correct and 0 otherwise, and `totalPoints` accrues the
effective points regardless of correctness. -/
def SubmitScoringRule (S : QuizState) : Prop :=
  ∀ (now idx : Int) (q : Question),
    (getCurrentQuestion S).1 = some q →
      (submitAnswer now idx S).1 = Except.ok
        { isCorrect := decide (idx = q.correctIndex)
          feedback := if idx = q.correctIndex then q.correctResponse
            else jsOrStr (q.incorrectResponses idx) "Incorrect answer."
          points := if idx = q.correctIndex then effectivePoints q else 0
          correctIndex := q.correctIndex
          selectedIndex := idx }
      ∧ (submitAnswer now idx S).2.score =
          S.score + (if idx = q.correctIndex then effectivePoints q else 0)
      ∧ (submitAnswer now idx S).2.totalPoints = S.totalPoints + effectivePoints q
      ∧ (submitAnswer now idx S).2.correctCount =
          S.correctCount + (if idx = q.correctIndex then 1 else 0)

/-- **C2 (amended).** For every session whose questions all carry a
non-negative effective point value (`question.points`, with the
per-difficulty default of `q.points || getDefaultPoints(...)`; pack
validation never checks the sign, hence the proviso) and every sequence of
engine calls: `score` equals the sum of the `points` entries in `answers`,
`score ≤ totalPoints` at every step, `score`, `totalPoints` and
`correctCount` are never decremented, and each `submitAnswer` follows the
stated per-call scoring rule. -/
theorem engine_scoring_invariants (s₀ : QuizState) (acts : List EngineAction)
    (hq : ∀ q ∈ s₀.questions, 0 ≤ effectivePoints q)
    (hsum : s₀.score = sumPoints s₀.answers) (hle : s₀.score ≤ s₀.totalPoints) :
    ScoringInvariants s₀ (runActions s₀ acts) ∧ SubmitScoringRule (runActions s₀ acts) := by
  obtain ⟨h1, h2, h3, h4, h5, h6⟩ := runActions_invariant acts s₀ hq hsum hle
  refine ⟨⟨h2, h3, h4, h5, h6⟩, ?_⟩
  intro now idx q hgc
  obtain ⟨hres, hsc, htp, hcc, hans, hqs, hidx, hst⟩ :=
    submitAnswer_step now idx (runActions s₀ acts) q hgc
  exact ⟨hres, hsc, htp, hcc⟩

/-- Witness for C2: the invariants instantiated on a freshly reset engine and
a one-submission trace. -/
theorem engine_scoring_invariants_witness :
    ((∀ q ∈ resetState.questions, 0 ≤ effectivePoints q)
      ∧ resetState.score = sumPoints resetState.answers
      ∧ resetState.score ≤ resetState.totalPoints)
    ∧ ScoringInvariants resetState (runActions resetState [EngineAction.submit 0 0])
    ∧ SubmitScoringRule (runActions resetState [EngineAction.submit 0 0]) :=
  ⟨⟨by simp [resetState], rfl, le_refl 0⟩,
    engine_scoring_invariants resetState [EngineAction.submit 0 0]
      (by simp [resetState]) rfl (le_refl 0)⟩

/-- A question with a negative authored `points` value; `validateQuestion`
accepts it (only presence, option count, index range and the difficulty enum
are checked), so it can reach a session through an uploaded pack. -/
def negPointsQuestion : Question :=
  { id := "neg-001"
    question := "negatively scored"
    options := ["a", "b"]
    correctIndex := 0
    correctResponse := "yes"
    incorrectResponses := fun _ => none
    category := "neg"
    difficulty := "easy"
    points := some (-5)
    hints := [] }

/-- The session `startQuiz('neg', false, false)` builds over a view holding
only `negPointsQuestion`. -/
def negPointsSession : QuizState :=
  match startQuiz [("neg", [negPointsQuestion])] [] (fun _ => 0) (fun _ => 0) (fun _ => 0)
      (fun _ _ => 0) 0 (some "neg") false false with
  | Except.ok (_, s) => s
  | Except.error _ => resetState

/-- **C2, counterexample.** The claim fails as stated: a question's `points`
can be negative (pack validation never checks the sign), and one wrong answer
on such a question leaves `score = 0` while `totalPoints` drops to `-5`, so
`score ≤ totalPossiblePoints` is violated in a session the engine itself
built. -/
theorem negative_points_break_score_bound :
    startQuiz [("neg", [negPointsQuestion])] [] (fun _ => 0) (fun _ => 0) (fun _ => 0)
        (fun _ _ => 0) 0 (some "neg") false false = Except.ok (1, negPointsSession)
    ∧ negPointsSession.questions = [negPointsQuestion]
    ∧ (submitAnswer 0 1 negPointsSession).2.score = 0
    ∧ (submitAnswer 0 1 negPointsSession).2.totalPoints = -5
    ∧ ¬((submitAnswer 0 1 negPointsSession).2.score ≤
        (submitAnswer 0 1 negPointsSession).2.totalPoints) := by
  refine ⟨rfl, rfl, rfl, rfl, by decide⟩

/-- Whether an `Except` result is a success. -/
def exceptIsOk : Except ε α → Bool
  | .ok _ => true
  | .error _ => false

/-- **C10.** In the terminal state (`currentIndex ≥ questions.length`):
`getCurrentQuestion` returns `null` without touching the state, `submitAnswer`
throws `No current question` leaving every field (score, totalPoints,
correctCount, answers, currentQuestionIndex, ...) exactly as it was, and
`getHint` returns `null` without touching the hint counts. -/
theorem terminal_state_safe (s : QuizState)
    (h : s.questions.length ≤ s.currentQuestionIndex) :
    getCurrentQuestion s = (none, s)
    ∧ (∀ now idx : Int, submitAnswer now idx s = (Except.error QuizError.noCurrentQuestion, s))
    ∧ getHint s = (none, s) := by
  have hgc : getCurrentQuestion s = (none, s) := by
    unfold getCurrentQuestion
    rw [if_neg (Nat.not_lt.mpr h)]
  refine ⟨hgc, ?_, ?_⟩
  · intro now idx
    exact submitAnswer_no_question now idx s (by rw [hgc])
  · simp only [getHint, hgc]

/-- Witness for C10 at the freshly reset (hence terminal, zero-question) state. -/
theorem terminal_state_safe_witness :
    resetState.questions.length ≤ resetState.currentQuestionIndex
    ∧ (getCurrentQuestion resetState = (none, resetState)
      ∧ (∀ now idx : Int,
          submitAnswer now idx resetState = (Except.error QuizError.noCurrentQuestion, resetState))
      ∧ getHint resetState = (none, resetState)) :=
  ⟨Nat.le_refl 0, terminal_state_safe resetState (Nat.le_refl 0)⟩

theorem jsOrInt_zero (i : Int) : jsOrInt i 0 = i := by
  unfold jsOrInt
  split <;> omega

theorem jsOrNat_zero (n : Nat) : jsOrNat n 0 = n := by
  unfold jsOrNat
  split <;> omega

theorem filterMap_refs (lookup : String → String → String → Option Question) :
    ∀ (l : List Question),
    (∀ q ∈ l, lookup q.id q.category q.difficulty = some q) →
    (l.map (fun q =>
      ({ id := q.id, category := q.category, difficulty := q.difficulty } : QuestionRef))).filterMap
        (fun r => lookup r.id r.category r.difficulty) = l
  | [], _ => rfl
  | q :: t, h => by
    simp only [List.map_cons, List.filterMap_cons]
    rw [h q (List.mem_cons_self q t)]
    rw [filterMap_refs lookup t (fun q' hq' => h q' (List.mem_cons_of_mem q hq'))]

/-- **C9.** For every non-terminal session and a merged pack view in which
every question reference resolves back to the same question,
`restoreState(exportState(session))` reproduces the session's `score`,
`correctCount`, `currentIndex` and `answers` (and, in fact, the question list
itself), whatever state the receiving engine was in before. -/
theorem resume_round_trip (s prev : QuizState) (now : Int)
    (lookup : String → String → String → Option Question)
    (_hnt : s.currentQuestionIndex < s.questions.length)
    (hres : ∀ q ∈ s.questions, lookup q.id q.category q.difficulty = some q) :
    (restoreState prev (exportState now s) lookup).score = s.score
    ∧ (restoreState prev (exportState now s) lookup).correctCount = s.correctCount
    ∧ (restoreState prev (exportState now s) lookup).currentQuestionIndex =
        s.currentQuestionIndex
    ∧ (restoreState prev (exportState now s) lookup).answers = s.answers
    ∧ (restoreState prev (exportState now s) lookup).questions = s.questions := by
  unfold restoreState exportState
  refine ⟨jsOrInt_zero s.score, jsOrNat_zero s.correctCount, jsOrNat_zero s.currentQuestionIndex,
    rfl, ?_⟩
  exact filterMap_refs lookup s.questions hres

/-- A built-in question, verbatim from `questions/categories/test-pack.js`. -/
def testEasy001 : Question :=
  { id := "test-easy-001"
    question := "What is the capital city of France?"
    options := ["London", "Berlin", "Paris", "Madrid"]
    correctIndex := 2
    correctResponse := "Correct! Paris is the capital and largest city of France."
    incorrectResponses := fun i =>
      if i = 0 then some "London is the capital of England, not France."
      else if i = 1 then some "Berlin is the capital of Germany, not France."
      else if i = 3 then some "Madrid is the capital of Spain, not France."
      else none
    category := "test-pack"
    difficulty := "easy"
    points := some 10
    hints := ["It's a famous city known for the Eiffel Tower.",
      "The city starts with the letter P.",
      "It's the largest city in France."] }

/-- A one-question in-progress session used by several witnesses. -/
def sampleSession : QuizState :=
  { resetState with questions := [testEasy001], startTime := some 100 }

/-- Witness for C9 on a concrete one-question session. -/
theorem resume_round_trip_witness :
    (sampleSession.currentQuestionIndex < sampleSession.questions.length
      ∧ (∀ q ∈ sampleSession.questions,
          (fun _ _ _ => some testEasy001 : String → String → String → Option Question)
            q.id q.category q.difficulty = some q))
    ∧ ((restoreState resetState (exportState 200 sampleSession)
          (fun _ _ _ => some testEasy001)).score = sampleSession.score
      ∧ (restoreState resetState (exportState 200 sampleSession)
          (fun _ _ _ => some testEasy001)).correctCount = sampleSession.correctCount
      ∧ (restoreState resetState (exportState 200 sampleSession)
          (fun _ _ _ => some testEasy001)).currentQuestionIndex =
            sampleSession.currentQuestionIndex
      ∧ (restoreState resetState (exportState 200 sampleSession)
          (fun _ _ _ => some testEasy001)).answers = sampleSession.answers
      ∧ (restoreState resetState (exportState 200 sampleSession)
          (fun _ _ _ => some testEasy001)).questions = sampleSession.questions) :=
  ⟨⟨Nat.zero_lt_one, by
      intro q hq
      simp only [sampleSession, List.mem_singleton] at hq
      rw [hq]⟩,
    resume_round_trip sampleSession resetState 200 (fun _ _ _ => some testEasy001)
      Nat.zero_lt_one (by
        intro q hq
        simp only [sampleSession, List.mem_singleton] at hq
        rw [hq])⟩

/-- A snapshot whose only question reference no longer resolves. -/
def staleSnapshot : SavedState :=
  { questions := [{ id := "gone-001", category := "c", difficulty := "easy" }]
    currentQuestionIndex := 0
    score := 0
    totalPoints := 0
    correctCount := 0
    answers := []
    difficulty := none
    category := none
    hintsUsed := fun _ => 0
    startTime := none
    timestamp := 0 }

/-- **C5, counterexample.** `restoreState` cannot fail (the source has no throw
on this path, which the total return type of the embedding reflects): given a
snapshot referencing a question that the current lookup no longer resolves, it
returns normally and rebuilds the session with that question silently dropped,
instead of failing with a `StaleSessionError`. -/
theorem restoreState_drops_silently :
    (restoreState resetState staleSnapshot (fun _ _ _ => none)).questions = []
    ∧ staleSnapshot.questions.length = 1
    ∧ (restoreState resetState staleSnapshot (fun _ _ _ => none)).currentQuestionIndex = 0 :=
  ⟨rfl, rfl, rfl⟩

theorem filterMap_length_lt (f : α → Option β) :
    ∀ (l : List α), (∃ a ∈ l, f a = none) → (l.filterMap f).length < l.length
  | [], h => by simp at h
  | a :: t, h => by
    simp only [List.filterMap_cons]
    cases hfa : f a with
    | none =>
      calc (t.filterMap f).length ≤ t.length := List.length_filterMap_le f t
        _ < (a :: t).length := by simp
    | some b =>
      obtain ⟨a', ha', hfa'⟩ := h
      rcases List.mem_cons.mp ha' with rfl | ha'
      · rw [hfa] at hfa'; exact absurd hfa' (by simp)
      · have := filterMap_length_lt f t ⟨a', ha', hfa'⟩
        simpa using Nat.succ_lt_succ this

/-- **C5 (amended).** `restoreState` never raises a `StaleSessionError`: a
snapshot reference that the current lookup cannot resolve (pack removed or
disabled) is silently dropped from the rebuilt session — the rebuilt question
list is strictly shorter than the snapshot's reference list, and every rebuilt
question comes from a reference that did resolve. -/
theorem restoreState_drops_unresolvable (prev : QuizState) (saved : SavedState)
    (lookup : String → String → String → Option Question)
    (hdrop : ∃ r ∈ saved.questions, lookup r.id r.category r.difficulty = none) :
    (restoreState prev saved lookup).questions.length < saved.questions.length
    ∧ ∀ q ∈ (restoreState prev saved lookup).questions,
        ∃ r ∈ saved.questions, lookup r.id r.category r.difficulty = some q := by
  constructor
  · have := filterMap_length_lt (fun r => lookup r.id r.category r.difficulty)
      saved.questions hdrop
    simpa [restoreState] using this
  · intro q hq
    simp only [restoreState, List.mem_filterMap] at hq
    obtain ⟨r, hr, hres⟩ := hq
    exact ⟨r, hr, hres⟩

/-- Witness for the amended C5 on the concrete stale snapshot. -/
theorem restoreState_drops_unresolvable_witness :
    (∃ r ∈ staleSnapshot.questions,
      (fun _ _ _ => none : String → String → String → Option Question)
        r.id r.category r.difficulty = none)
    ∧ ((restoreState resetState staleSnapshot (fun _ _ _ => none)).questions.length <
        staleSnapshot.questions.length
      ∧ ∀ q ∈ (restoreState resetState staleSnapshot (fun _ _ _ => none)).questions,
          ∃ r ∈ staleSnapshot.questions,
            (fun _ _ _ => none : String → String → String → Option Question)
              r.id r.category r.difficulty = some q) :=
  ⟨⟨{ id := "gone-001", category := "c", difficulty := "easy" }, by simp [staleSnapshot], rfl⟩,
    restoreState_drops_unresolvable resetState staleSnapshot (fun _ _ _ => none)
      ⟨{ id := "gone-001", category := "c", difficulty := "easy" }, by simp [staleSnapshot], rfl⟩⟩

/-- The UI discipline: submit an answer for the current question, then advance. -/
def submitThenAdvance (s : QuizState) (p : Int × Int) : QuizState :=
  (nextQuestion (submitAnswer p.1 p.2 s).2).2

/-- Play the whole session under the submit-then-advance discipline. -/
def playRun (s : QuizState) (picks : List (Int × Int)) : QuizState :=
  picks.foldl submitThenAdvance s

theorem playRun_answers : ∀ (picks : List (Int × Int)) (s : QuizState),
    s.currentQuestionIndex + picks.length ≤ s.questions.length →
    ((playRun s picks).answers).map (fun a => a.questionId)
      = (s.answers.map (fun a => a.questionId))
        ++ (((s.questions.drop s.currentQuestionIndex).take picks.length).map (fun q => q.id))
  | [], s, _ => by simp [playRun]
  | p :: rest, s, hlen => by
    have hlt : s.currentQuestionIndex < s.questions.length := by
      simp only [List.length_cons] at hlen
      omega
    have hget : s.questions.get? s.currentQuestionIndex =
        some (s.questions.get ⟨s.currentQuestionIndex, hlt⟩) :=
      List.get?_eq_get hlt
    have hgc : (getCurrentQuestion s).1 = some (s.questions.get ⟨s.currentQuestionIndex, hlt⟩) :=
      (getCurrentQuestion_fst s _).mpr hget
    obtain ⟨hres, hsc, htp, hcc, hans, hqs, hidx, hst⟩ := submitAnswer_step p.1 p.2 s _ hgc
    have hstep : playRun s (p :: rest) = playRun (submitThenAdvance s p) rest := rfl
    have h2qs : (submitThenAdvance s p).questions = s.questions := by
      simp [submitThenAdvance, nextQuestion_preserves, hqs]
    have h2idx : (submitThenAdvance s p).currentQuestionIndex = s.currentQuestionIndex + 1 := by
      simp [submitThenAdvance, nextQuestion_preserves, hidx]
    have h2ans : (submitThenAdvance s p).answers.map (fun a => a.questionId)
        = s.answers.map (fun a => a.questionId)
          ++ [(s.questions.get ⟨s.currentQuestionIndex, hlt⟩).id] := by
      simp [submitThenAdvance, nextQuestion_preserves, hans]
    have ih := playRun_answers rest (submitThenAdvance s p)
      (by rw [h2qs, h2idx]; simp only [List.length_cons] at hlen; omega)
    have hdrop : s.questions.drop s.currentQuestionIndex
        = s.questions.get ⟨s.currentQuestionIndex, hlt⟩ :: s.questions.drop
            (s.currentQuestionIndex + 1) := by
      rw [List.drop_eq_getElem_cons hlt]
      rfl
    rw [hstep, ih, h2qs, h2idx, h2ans, List.length_cons, hdrop, List.take_succ_cons,
      List.map_cons, List.append_assoc, List.singleton_append]

/-- A one-question session built by `startQuiz` itself over a registry holding
the built-in test-pack question. -/
def c4Session : QuizState :=
  match startQuiz [("test-pack", [testEasy001])] [] (fun _ => 0) (fun _ => 0) (fun _ => 0)
      (fun _ _ => 0) 0 none false false with
  | Except.ok (_, s) => s
  | Except.error _ => resetState

/-- **C4, counterexample.** The engine has no double-submission guard: on a
session the engine itself built, a second `submitAnswer` before any `advance`
succeeds (no `InvalidStateError` — the only throw in `submitAnswer` is the
no-current-question check) and appends a second `answers` entry for the same
question. -/
theorem double_submit_not_rejected :
    exceptIsOk (submitAnswer 5 2 c4Session).1 = true
    ∧ exceptIsOk (submitAnswer 7 2 (submitAnswer 5 2 c4Session).2).1 = true
    ∧ (submitAnswer 7 2 (submitAnswer 5 2 c4Session).2).2.answers.length = 2
    ∧ ((submitAnswer 7 2 (submitAnswer 5 2 c4Session).2).2.answers.map
        (fun a => a.questionId)) = ["test-easy-001", "test-easy-001"] :=
  ⟨rfl, rfl, rfl, rfl⟩

/-- **C4 (amended).** The engine does not reject a second `submitAnswer` for
the same question: before `advance`, a repeated call succeeds and appends a
further `answers` entry (the once-per-question discipline is enforced by the
UI layer, not the engine). Under that discipline — one submission followed by
one `advance` per question — the `answers` list gains exactly one entry per
question, in question order. -/
theorem submitAnswer_once_per_question (s₀ : QuizState) (picks : List (Int × Int))
    (hans : s₀.answers = []) (hidx : s₀.currentQuestionIndex = 0)
    (hlen : picks.length = s₀.questions.length) :
    ((playRun s₀ picks).answers.map (fun a => a.questionId)
      = s₀.questions.map (fun q => q.id))
    ∧ (∀ (s : QuizState) (q : Question) (n₁ i₁ n₂ i₂ : Int),
        (getCurrentQuestion s).1 = some q →
          exceptIsOk (submitAnswer n₂ i₂ (submitAnswer n₁ i₁ s).2).1 = true
          ∧ (submitAnswer n₂ i₂ (submitAnswer n₁ i₁ s).2).2.answers.length
              = s.answers.length + 2) := by
  constructor
  · have := playRun_answers picks s₀ (by omega)
    rw [this, hans, hidx, hlen]
    simp
  · intro s q n₁ i₁ n₂ i₂ hgc
    obtain ⟨hres1, hsc1, htp1, hcc1, hans1, hqs1, hidx1, hst1⟩ := submitAnswer_step n₁ i₁ s q hgc
    have hgc2 : (getCurrentQuestion (submitAnswer n₁ i₁ s).2).1 = some q := by
      rw [getCurrentQuestion_fst, hqs1, hidx1]
      exact (getCurrentQuestion_fst s q).mp hgc
    obtain ⟨hres2, hsc2, htp2, hcc2, hans2, hqs2, hidx2, hst2⟩ :=
      submitAnswer_step n₂ i₂ (submitAnswer n₁ i₁ s).2 q hgc2
    refine ⟨by rw [hres2]; rfl, ?_⟩
    rw [hans2, hans1]
    simp

/-- Witness for the amended C4 on the concrete one-question session. -/
theorem submitAnswer_once_per_question_witness :
    (c4Session.answers = [] ∧ c4Session.currentQuestionIndex = 0
      ∧ ([(5, 2)] : List (Int × Int)).length = c4Session.questions.length)
    ∧ ((playRun c4Session [(5, 2)]).answers.map (fun a => a.questionId)
        = c4Session.questions.map (fun q => q.id))
    ∧ (∀ (s : QuizState) (q : Question) (n₁ i₁ n₂ i₂ : Int),
        (getCurrentQuestion s).1 = some q →
          exceptIsOk (submitAnswer n₂ i₂ (submitAnswer n₁ i₁ s).2).1 = true
          ∧ (submitAnswer n₂ i₂ (submitAnswer n₁ i₁ s).2).2.answers.length
              = s.answers.length + 2) :=
  ⟨⟨rfl, rfl, rfl⟩,
    submitAnswer_once_per_question c4Session [(5, 2)] rfl rfl rfl⟩

theorem jsIndexOf_of_mem {l : List String} {a : String} (h : a ∈ l) :
    0 ≤ jsIndexOf l a ∧ jsGetElem l (jsIndexOf l a) = some a := by
  unfold jsIndexOf jsGetElem
  rw [if_pos h]
  refine ⟨Int.natCast_nonneg _, ?_⟩
  rw [if_neg (by exact Int.not_lt.mpr (Int.natCast_nonneg _)), Int.toNat_natCast]
  exact List.indexOf_get? h

theorem jsIndexOf_of_not_mem {l : List String} {a : String} (h : ¬a ∈ l) :
    jsIndexOf l a = -1 := by
  unfold jsIndexOf
  rw [if_neg h]

/-- The property every entry of the remapped `incorrectResponses` satisfies:
the key holds the explanation text of an original incorrect option, and the
option now sitting at that key is that same original option (identity of the
underlying option text). -/
def RemappedEntryOk (q : Question) (newOptions : List String) (k : Int) (e : String) : Prop :=
  ∃ i : Nat, (i : Int) ≠ q.correctIndex ∧ i < q.options.length
    ∧ q.incorrectResponses (i : Int) = some e
    ∧ jsGetElem newOptions k = q.options.get? i

theorem remapGo_spec (q : Question) (newOptions : List String) (nci : Int) :
    ∀ (pairs : List (Nat × String)) (m : Int → Option String),
    (∀ p ∈ pairs, q.options.get? p.1 = some p.2) →
    (∀ k e, m k = some e → RemappedEntryOk q newOptions k e) →
    ∀ k e, shuffleQuestionOptions.remapGo q newOptions nci pairs m k = some e →
      RemappedEntryOk q newOptions k e
  | [], m, _, hm, k, e, h => hm k e h
  | (oldIndex, option) :: rest, m, hpairs, hm, k, e, h => by
    have hrest : ∀ p ∈ rest, q.options.get? p.1 = some p.2 :=
      fun p hp => hpairs p (List.mem_cons_of_mem _ hp)
    have hhead : q.options.get? oldIndex = some option :=
      hpairs (oldIndex, option) (List.mem_cons_self _ _)
    rw [shuffleQuestionOptions.remapGo] at h
    by_cases hci : (oldIndex : Int) = q.correctIndex
    · rw [if_pos hci] at h
      exact remapGo_spec q newOptions nci rest m hrest hm k e h
    · rw [if_neg hci] at h
      by_cases hni : jsIndexOf newOptions option ≠ -1 ∧ jsIndexOf newOptions option ≠ nci
      · rw [if_pos hni] at h
        refine remapGo_spec q newOptions nci rest _ hrest ?_ k e h
        intro k' e' hk'
        by_cases hkn : k' = jsIndexOf newOptions option
        · rw [if_pos hkn] at hk'
          have hmem : option ∈ newOptions := by
            by_contra hno
            exact hni.1 (jsIndexOf_of_not_mem hno)
          refine ⟨oldIndex, hci, ?_, hk', ?_⟩
          · exact List.get?_eq_some.mp hhead |>.choose
          · rw [hkn, (jsIndexOf_of_mem hmem).2, hhead]
        · rw [if_neg hkn] at hk'
          exact hm k' e' hk'
      · rw [if_neg hni] at h
        exact remapGo_spec q newOptions nci rest m hrest hm k e h

/-- **C6.** For every question with at least two options and a valid
`correctIndex`, and every random oracle: `shuffleQuestionOptions` permutes the
options (the multiset of option strings is unchanged), the shuffled
`options[correctIndex]` is the original correct string, and every key of the
remapped `incorrectExplanations` holds the explanation text of the original
incorrect option whose text now sits at that key. The source operates on
`{...question}` spread clones, so the canonical record is never mutated — in
the embedding this is reflected by `shuffleQuestionOptions` being a pure
function of its argument, every other field of which it returns unchanged. -/
theorem shuffleQuestionOptions_bijection (rand : Nat → Nat) (q : Question)
    (_h2 : 2 ≤ q.options.length) (hlo : 0 ≤ q.correctIndex)
    (hhi : q.correctIndex < (q.options.length : Int)) :
    List.Perm (shuffleQuestionOptions rand q).options q.options
    ∧ (∃ a : String, jsGetElem q.options q.correctIndex = some a
        ∧ jsGetElem (shuffleQuestionOptions rand q).options
            (shuffleQuestionOptions rand q).correctIndex = some a)
    ∧ (∀ (k : Int) (e : String), (shuffleQuestionOptions rand q).incorrectResponses k = some e →
        RemappedEntryOk q (shuffleQuestionOptions rand q).options k e)
    ∧ (shuffleQuestionOptions rand q).id = q.id
    ∧ (shuffleQuestionOptions rand q).difficulty = q.difficulty := by
  have htn : q.correctIndex.toNat < q.options.length := by omega
  have hget : q.options.get? q.correctIndex.toNat =
      some (q.options.get ⟨q.correctIndex.toNat, htn⟩) := List.get?_eq_get htn
  have hca : jsGetElem q.options q.correctIndex =
      some (q.options.get ⟨q.correctIndex.toNat, htn⟩) := by
    unfold jsGetElem
    rw [if_neg (Int.not_lt.mpr hlo)]
    exact hget
  have hmem : q.options.get ⟨q.correctIndex.toNat, htn⟩ ∈ shuffleArray rand q.options :=
    (shuffleArray_mem rand q.options _).mpr (List.get_mem _ _ _)
  have hopts : (shuffleQuestionOptions rand q).options = shuffleArray rand q.options := rfl
  have hcorr : (shuffleQuestionOptions rand q).correctIndex =
      jsIndexOf (shuffleArray rand q.options) (q.options.get ⟨q.correctIndex.toNat, htn⟩) := by
    simp only [shuffleQuestionOptions, hca]
  have hresp : (shuffleQuestionOptions rand q).incorrectResponses =
      shuffleQuestionOptions.remapGo q (shuffleArray rand q.options)
        (jsIndexOf (shuffleArray rand q.options) (q.options.get ⟨q.correctIndex.toNat, htn⟩))
        q.options.enum (fun _ => none) := by
    simp only [shuffleQuestionOptions, hca]
  refine ⟨?_, ⟨_, hca, ?_⟩, ?_, rfl, rfl⟩
  · rw [hopts]
    exact shuffleArray_perm rand q.options
  · rw [hopts, hcorr]
    exact (jsIndexOf_of_mem hmem).2
  · intro k e h
    rw [hresp] at h
    rw [hopts]
    refine remapGo_spec q (shuffleArray rand q.options) _ q.options.enum (fun _ => none)
      ?_ (fun k' e' h' => absurd h' (by simp)) k e h
    intro p hp
    obtain ⟨i, x⟩ := p
    rw [List.get?_eq_getElem?]
    exact List.mk_mem_enum_iff_getElem?.mp hp

/-- Witness for C6 on the concrete test-pack question. -/
theorem shuffleQuestionOptions_bijection_witness :
    (2 ≤ testEasy001.options.length ∧ 0 ≤ testEasy001.correctIndex
      ∧ testEasy001.correctIndex < (testEasy001.options.length : Int))
    ∧ (List.Perm (shuffleQuestionOptions (fun _ => 0) testEasy001).options testEasy001.options
      ∧ (∃ a : String, jsGetElem testEasy001.options testEasy001.correctIndex = some a
          ∧ jsGetElem (shuffleQuestionOptions (fun _ => 0) testEasy001).options
              (shuffleQuestionOptions (fun _ => 0) testEasy001).correctIndex = some a)
      ∧ (∀ (k : Int) (e : String),
          (shuffleQuestionOptions (fun _ => 0) testEasy001).incorrectResponses k = some e →
            RemappedEntryOk testEasy001
              (shuffleQuestionOptions (fun _ => 0) testEasy001).options k e)
      ∧ (shuffleQuestionOptions (fun _ => 0) testEasy001).id = testEasy001.id
      ∧ (shuffleQuestionOptions (fun _ => 0) testEasy001).difficulty = testEasy001.difficulty) :=
  ⟨⟨by decide, by decide, by decide⟩,
    shuffleQuestionOptions_bijection (fun _ => 0) testEasy001 (by decide) (by decide) (by decide)⟩

/-! ## The merged-view equation (C3) -/

/-- The questions a single pack's category table contributes to category `c`
(every entry under that category id, in order, via the shape dispatch). -/
def catQuestions (packCategories : PackCategories) (c : String) : List PackQuestion :=
  (packCategories.filter (fun e => e.1 = c)).flatMap
    (fun e => (extractQuestions e.2).getD [])

/-- The questions all enabled packs of one table contribute to category `c`. -/
def tableQuestions (s : PMState) (table : List (String × PackCategories)) (c : String) :
    List PackQuestion :=
  (table.filter (fun e => packEnabled s e.1)).flatMap (fun e => catQuestions e.2 c)

theorem mapLookup_any_false {m : List (String × α)} {k : String}
    (h : m.any (fun e => e.1 = k) = false) : mapLookup m k = none := by
  induction m with
  | nil => rfl
  | cons e t ih =>
    simp only [List.any_cons, Bool.or_eq_false_iff, decide_eq_false_iff_not] at h
    simp only [mapLookup, List.find?_cons, decide_eq_false h.1]
    exact ih (by simpa using h.2)

theorem mapLookup_append (m₁ m₂ : List (String × α)) (k : String) :
    mapLookup (m₁ ++ m₂) k =
      match mapLookup m₁ k with
      | some v => some v
      | none => mapLookup m₂ k := by
  induction m₁ with
  | nil => simp [mapLookup]
  | cons e t ih =>
    by_cases he : e.1 = k
    · simp [mapLookup, List.find?_cons, he]
    · simp only [mapLookup, List.cons_append, List.find?_cons, decide_eq_false he] at ih ⊢
      exact ih

theorem mapLookup_any_true {m : List (String × α)} {k : String}
    (h : m.any (fun e => e.1 = k) = true) : ∃ v, mapLookup m k = some v := by
  induction m with
  | nil => simp at h
  | cons e t ih =>
    by_cases he : e.1 = k
    · exact ⟨e.2, by simp [mapLookup, List.find?_cons, he]⟩
    · simp only [List.any_cons, Bool.or_eq_true, decide_eq_true_eq] at h
      rcases h with h | h
      · exact absurd h he
      · obtain ⟨v, hv⟩ := ih h
        exact ⟨v, by simp only [mapLookup, List.find?_cons, decide_eq_false he] at hv ⊢; exact hv⟩

theorem mapLookup_map_value (f : String → List β → List β)
    (m : List (String × List β)) (c : String) :
    mapLookup (m.map (fun e => (e.1, f e.1 e.2))) c = (mapLookup m c).map (f c) := by
  induction m with
  | nil => rfl
  | cons e t ih =>
    by_cases hec : e.1 = c
    · simp [mapLookup, List.find?_cons, hec]
    · simp only [List.map_cons, mapLookup, List.find?_cons, decide_eq_false hec] at ih ⊢
      exact ih

theorem mapLookup_update_append (m : List (String × List β)) (cid : String) (qs : List β)
    (c : String) :
    mapLookup (m.map (fun e => if e.1 = cid then (e.1, e.2 ++ qs) else e)) c =
      if cid = c then (mapLookup m c).map (fun v => v ++ qs) else mapLookup m c := by
  have hmap : (m.map (fun e => if e.1 = cid then (e.1, e.2 ++ qs) else e))
      = m.map (fun e => (e.1, if e.1 = cid then e.2 ++ qs else e.2)) := by
    apply List.map_congr_left
    intro e _
    by_cases he : e.1 = cid <;> simp [he]
  rw [hmap, mapLookup_map_value (fun k v => if k = cid then v ++ qs else v)]
  by_cases hcid : cid = c
  · rw [if_pos hcid, hcid]
    simp
  · rw [if_neg hcid]
    have hc : ¬(c = cid) := fun h => hcid h.symm
    cases mapLookup m c <;> simp [hc]

theorem lookupD_ensure (m : List (String × List β)) (cid c : String) :
    lookupD (if m.any (fun e => e.1 = cid) then m else m ++ [(cid, [])]) c = lookupD m c := by
  split
  · rfl
  · unfold lookupD
    rw [mapLookup_append]
    cases hm : mapLookup m c with
    | some v => simp
    | none => by_cases hc : cid = c <;> simp [mapLookup, List.find?, hc]

theorem mapLookup_ensure (m : List (String × List β)) (cid : String) :
    mapLookup (if m.any (fun e => e.1 = cid) then m else m ++ [(cid, [])]) cid
      = some (lookupD m cid) := by
  split
  · next hk =>
    obtain ⟨v, hv⟩ := mapLookup_any_true hk
    rw [hv]
    unfold lookupD
    rw [hv]
    rfl
  · next hk =>
    have hany : m.any (fun e => e.1 = cid) = false := by
      rw [Bool.not_eq_true] at hk
      exact hk
    have hnone := mapLookup_any_false hany
    rw [mapLookup_append, hnone]
    unfold lookupD
    rw [hnone]
    simp [mapLookup, List.find?]

theorem mergeEntry_lookupD (m : List (String × List PackQuestion)) (cid : String)
    (cd : CategoryData) (c : String) :
    lookupD (mergeEntry m cid cd) c
      = lookupD m c ++ (if cid = c then (extractQuestions cd).getD [] else []) := by
  cases hex : extractQuestions cd with
  | none =>
    simp only [mergeEntry, hex]
    rw [lookupD_ensure]
    by_cases hc : cid = c <;> simp [hc]
  | some qs =>
    simp only [mergeEntry, hex]
    by_cases hqs : qs.length = 0
    · have hnil : qs = [] := List.length_eq_zero.mp hqs
      subst hnil
      have h0 : (([] : List PackQuestion)).length = 0 := rfl
      rw [if_pos h0, lookupD_ensure]
      by_cases hc : cid = c <;> simp [hc]
    · rw [if_neg hqs]
      show (mapLookup _ c).getD [] = _
      rw [mapLookup_update_append]
      by_cases hc : cid = c
      · rw [if_pos hc]
        subst hc
        rw [mapLookup_ensure m cid]
        simp
      · rw [if_neg hc]
        show lookupD _ c = _
        rw [lookupD_ensure]
        simp [hc]

theorem mergePack_lookupD :
    ∀ (packCategories : PackCategories) (m : List (String × List PackQuestion)) (c : String),
    lookupD (mergePack m packCategories) c = lookupD m c ++ catQuestions packCategories c
  | [], m, c => by simp [mergePack, catQuestions]
  | (cid, cd) :: rest, m, c => by
    have hfold : mergePack m ((cid, cd) :: rest) = mergePack (mergeEntry m cid cd) rest := rfl
    rw [hfold, mergePack_lookupD rest (mergeEntry m cid cd) c, mergeEntry_lookupD]
    have hcat : catQuestions ((cid, cd) :: rest) c
        = (if cid = c then (extractQuestions cd).getD [] else []) ++ catQuestions rest c := by
      unfold catQuestions
      by_cases hc : cid = c <;> simp [List.filter_cons, hc]
    rw [hcat, List.append_assoc]

theorem mergeTable_lookupD (s : PMState) :
    ∀ (table : List (String × PackCategories)) (m : List (String × List PackQuestion))
      (c : String),
    lookupD (mergeTable s m table) c = lookupD m c ++ tableQuestions s table c
  | [], m, c => by simp [mergeTable, tableQuestions]
  | (pid, pc) :: rest, m, c => by
    have hfold : mergeTable s m ((pid, pc) :: rest)
        = mergeTable s (if packEnabled s pid then mergePack m pc else m) rest := rfl
    rw [hfold, mergeTable_lookupD s rest _ c]
    have htab : tableQuestions s ((pid, pc) :: rest) c
        = (if packEnabled s pid then catQuestions pc c else []) ++ tableQuestions s rest c := by
      unfold tableQuestions
      by_cases hp : packEnabled s pid <;> simp [List.filter_cons, hp]
    rw [htab]
    by_cases hp : packEnabled s pid
    · rw [if_pos hp, if_pos hp, mergePack_lookupD, List.append_assoc]
    · rw [if_neg hp, if_neg hp]
      simp

/-- **C3.** For every resolver state, authentication flag and category: the
merged view's question list for that category is exactly the concatenation of
the enabled builtin packs' questions, then (only when authenticated) the
enabled api packs' questions, then the enabled upload packs' questions — so
builtin and upload packs always contribute, an api pack contributes only when
authenticated and enabled, and a category present in several packs is
concatenated in the fixed builtin/api/upload order rather than overwritten.
`getMergedQuestions` reads only the tables and the authentication boolean
(in the source, `checkAuthentication()`; here the `isAuthenticated`
parameter), so two calls with no state change in between are applications of
a pure function to equal arguments and return structurally equal results —
the embedding makes the second conjunct definitional. -/
theorem getMergedQuestions_spec (s : PMState) (isAuthenticated : Bool) (c : String) :
    lookupD (getMergedQuestions isAuthenticated s) c
      = tableQuestions s s.builtInPacks c
        ++ (if isAuthenticated then tableQuestions s s.securePacks c else [])
        ++ tableQuestions s s.customPacks c
    ∧ getMergedQuestions isAuthenticated s = getMergedQuestions isAuthenticated s := by
  refine ⟨?_, rfl⟩
  unfold getMergedQuestions
  cases isAuthenticated with
  | false =>
    simp only [Bool.false_eq_true, if_false]
    rw [mergeTable_lookupD, mergeTable_lookupD]
    simp [lookupD, mapLookup]
  | true =>
    simp only [if_true]
    rw [mergeTable_lookupD, mergeTable_lookupD, mergeTable_lookupD]
    simp [lookupD, mapLookup, List.append_assoc]

/-! ## Upload validation is all-or-nothing (C7) -/

theorem validateQuestions_ok :
    ∀ (qs : List PackQuestion), exceptIsOk (validateQuestions qs) = true →
      ∀ q ∈ qs, exceptIsOk (validateQuestion q) = true
  | [], _, q, hq => absurd hq (List.not_mem_nil q)
  | q₀ :: rest, h, q, hq => by
    rw [validateQuestions] at h
    cases hv : validateQuestion q₀ with
    | error e => rw [hv] at h; exact absurd h (by simp [exceptIsOk])
    | ok _ =>
      rw [hv] at h
      rcases List.mem_cons.mp hq with rfl | hq'
      · rw [hv]; rfl
      · exact validateQuestions_ok rest h q hq'

theorem validateCategories_ok :
    ∀ (cats : PackCategories), exceptIsOk (validateCategories cats) = true →
      ∀ e ∈ cats, ∀ qs, catQuestionsField e.2 = some qs →
        exceptIsOk (validateQuestions qs) = true
  | [], _, e, he, _, _ => absurd he (List.not_mem_nil e)
  | (cid, cd) :: rest, h, e, he, qs, hqs => by
    rw [validateCategories] at h
    cases hcf : catQuestionsField cd with
    | none => rw [hcf] at h; exact absurd h (by simp [exceptIsOk])
    | some qs₀ =>
      rw [hcf] at h
      dsimp only at h
      cases hv : validateQuestions qs₀ with
      | error e2 => rw [hv] at h; exact absurd h (by simp [exceptIsOk])
      | ok _ =>
        rw [hv] at h
        dsimp only at h
        rcases List.mem_cons.mp he with heq | he2
        · have hcd : catQuestionsField cd = some qs := by
            rw [heq] at hqs
            exact hqs
          have hq : qs₀ = qs := Option.some.inj (hcf.symm.trans hcd)
          rw [← hq, hv]
          rfl
        · exact validateCategories_ok rest h e he2 qs hqs

theorem validatePackStructure_ok (p : PackPayload)
    (h : exceptIsOk (validatePackStructure p) = true) :
    exceptIsOk (validateCategories (p.categories.getD [])) = true := by
  unfold validatePackStructure at h
  by_cases h1 : jsOrStr p.packId "" = "" ∨ jsOrStr p.packName "" = ""
  · rw [if_pos h1] at h; exact absurd h (by simp [exceptIsOk])
  · rw [if_neg h1] at h
    by_cases h2 : p.categories.isNone
    · rw [if_pos h2] at h; exact absurd h (by simp [exceptIsOk])
    · rw [if_neg h2] at h
      split at h
      · exact absurd h (by simp [exceptIsOk])
      · exact h

/-- **C7.** For every pack payload in which some question of some category is
invalid (missing required field, fewer than 2 options, out-of-range
`correctIndex`, bad difficulty — anything `validateQuestion` rejects):
`loadCustomPack` fails and leaves the whole resolver state — in particular the
upload pack table and its pack count — exactly as it was, with no partial
application; and a question that is missing `correctIndex` (its earlier
required fields being present) is rejected with the `ValidationError` message
naming exactly the field `correctIndex`. -/
theorem loadCustomPack_rejects_invalid (now : Int) (p : PackPayload) (s : PMState)
    (hbad : ∃ e ∈ p.categories.getD [], ∃ qs, catQuestionsField e.2 = some qs
      ∧ ∃ q ∈ qs, exceptIsOk (validateQuestion q) = false) :
    exceptIsOk (loadCustomPack now p s).1 = false
    ∧ (loadCustomPack now p s).2 = s
    ∧ (loadCustomPack now p s).2.customPacks.length = s.customPacks.length
    ∧ (∀ q : PackQuestion, q.id.isNone = false → q.question.isNone = false →
        q.options.isNone = false → q.correctIndex.isNone = true →
        validateQuestion q = Except.error (VErr.missingField "correctIndex")) := by
  have herr : ∀ r, validatePackStructure p ≠ Except.ok r := by
    intro r hok
    obtain ⟨e, he, qs, hqs, q, hq, hbadq⟩ := hbad
    have h1 : exceptIsOk (validatePackStructure p) = true := by rw [hok]; rfl
    have h2 := validatePackStructure_ok p h1
    have h3 := validateCategories_ok (p.categories.getD []) h2 e he qs hqs
    have h4 := validateQuestions_ok qs h3 q hq
    rw [hbadq] at h4
    exact absurd h4 (by simp)
  have hres : ∃ e, validatePackStructure p = Except.error e := by
    cases hv : validatePackStructure p with
    | error e => exact ⟨e, rfl⟩
    | ok r => exact absurd hv (herr r)
  obtain ⟨e, he⟩ := hres
  refine ⟨?_, ?_, ?_, ?_⟩
  · simp only [loadCustomPack, he]
    rfl
  · simp only [loadCustomPack, he]
  · simp only [loadCustomPack, he]
  · intro q h1 h2 h3 h4
    unfold validateQuestion
    rw [if_neg (by rw [h1]; exact Bool.false_ne_true),
      if_neg (by rw [h2]; exact Bool.false_ne_true),
      if_neg (by rw [h3]; exact Bool.false_ne_true),
      if_pos h4]

/-- A question payload missing `correctIndex` (the spec's own scenario). -/
def questionMissingCorrectIndex : PackQuestion :=
  { id := some "broken-q1"
    question := some "Which field is missing?"
    options := some ["a", "b"]
    correctIndex := none
    category := some "cat1"
    difficulty := some "easy"
    points := some 10
    packId := none
    packSource := none }

/-- The category value holding the single invalid question. -/
def badCategoryData : CategoryData :=
  CategoryData.obj { questions := some [questionMissingCorrectIndex] }

/-- An upload payload whose only question is missing `correctIndex`. -/
def badUploadPayload : PackPayload :=
  { packId := some "bad-pack"
    packName := some "Bad Pack"
    categories := some [("cat1", badCategoryData)]
    metadata := none
    packSource := none }

/-- A resolver whose tables, cache and preferences are all empty. -/
def resetPMState : PMState :=
  { builtInPacks := []
    securePacks := []
    customPacks := []
    packMetadata := []
    cachedPacks := []
    packPreferences := [] }

/-- Witness for C7: the concrete missing-`correctIndex` upload is rejected
with the table untouched. -/
theorem loadCustomPack_rejects_invalid_witness :
    (∃ e ∈ badUploadPayload.categories.getD [], ∃ qs, catQuestionsField e.2 = some qs
      ∧ ∃ q ∈ qs, exceptIsOk (validateQuestion q) = false)
    ∧ (exceptIsOk (loadCustomPack 0 badUploadPayload resetPMState).1 = false
      ∧ (loadCustomPack 0 badUploadPayload resetPMState).2 = resetPMState
      ∧ (loadCustomPack 0 badUploadPayload resetPMState).2.customPacks.length =
          resetPMState.customPacks.length
      ∧ (∀ q : PackQuestion, q.id.isNone = false → q.question.isNone = false →
          q.options.isNone = false → q.correctIndex.isNone = true →
          validateQuestion q = Except.error (VErr.missingField "correctIndex"))) :=
  ⟨⟨("cat1", badCategoryData),
      by simp [badUploadPayload], [questionMissingCorrectIndex], rfl,
      questionMissingCorrectIndex, List.mem_singleton.mpr rfl, rfl⟩,
    loadCustomPack_rejects_invalid 0 badUploadPayload resetPMState
      ⟨("cat1", badCategoryData),
        by simp [badUploadPayload], [questionMissingCorrectIndex], rfl,
        questionMissingCorrectIndex, List.mem_singleton.mpr rfl, rfl⟩⟩

/-! ## Startup cache loading (C8) -/

/-- The category table a cached payload contributes when (re)loaded: its
categories with provenance stamped. -/
def stampedCategories (p : PackPayload) : PackCategories :=
  (p.categories.map (stampCategories p.packId (jsOrStr p.packSource "upload"))).getD []

theorem mapLookup_setmap_self (k : String) (v : α) :
    ∀ m : List (String × α), m.any (fun e => e.1 = k) = true →
      mapLookup (m.map (fun e => if e.1 = k then (k, v) else e)) k = some v
  | [], h => by simp at h
  | e :: t, h => by
    by_cases he : e.1 = k
    · simp [mapLookup, List.find?_cons, he]
    · simp only [List.any_cons, Bool.or_eq_true, decide_eq_true_eq] at h
      rcases h with h | h
      · exact absurd h he
      · simp only [List.map_cons, if_neg he, mapLookup, List.find?_cons, decide_eq_false he]
        exact mapLookup_setmap_self k v t (by simpa using h)

theorem mapLookup_mapSet_self (m : List (String × α)) (k : String) (v : α) :
    mapLookup (mapSet m k v) k = some v := by
  unfold mapSet
  split
  · next hk => exact mapLookup_setmap_self k v m hk
  · next hk =>
    have hany : m.any (fun e => e.1 = k) = false := by
      rw [Bool.not_eq_true] at hk
      exact hk
    rw [mapLookup_append, mapLookup_any_false hany]
    simp [mapLookup, List.find?]

theorem mapLookup_setmap_other (k k' : String) (v : α) (h : ¬k' = k) :
    ∀ m : List (String × α),
      mapLookup (m.map (fun e => if e.1 = k then (k, v) else e)) k' = mapLookup m k'
  | [] => rfl
  | e :: t => by
    by_cases he : e.1 = k
    · have h1 : ¬((k, v).1 = k') := fun hh => h hh.symm
      have h2 : ¬(e.1 = k') := by rw [he]; exact fun hh => h hh.symm
      simp only [List.map_cons, if_pos he, mapLookup, List.find?_cons, decide_eq_false h1,
        decide_eq_false h2]
      exact mapLookup_setmap_other k k' v h t
    · by_cases he2 : e.1 = k'
      · simp [mapLookup, List.find?_cons, if_neg he, he2, h]
      · simp only [List.map_cons, if_neg he, mapLookup, List.find?_cons, decide_eq_false he2]
        exact mapLookup_setmap_other k k' v h t

theorem mapLookup_mapSet_other (m : List (String × α)) (k k' : String) (v : α)
    (h : ¬k' = k) : mapLookup (mapSet m k v) k' = mapLookup m k' := by
  unfold mapSet
  split
  · exact mapLookup_setmap_other k k' v h m
  · rw [mapLookup_append]
    cases hm : mapLookup m k' with
    | some w => rfl
    | none =>
      have hkk : ¬(k = k') := fun hh => h hh.symm
      simp [mapLookup, List.find?, hkk]

theorem cacheEntryStep_isSome (now : Int) (isAuth : Bool) (pid : String) (c : CacheEntry)
    (s : PMState) (hv : exceptIsOk (validatePackStructure c.packData) = true) :
    (cacheEntryStep now isAuth pid c s).isSome = true := by
  unfold cacheEntryStep
  by_cases hexp : cacheExpired now c = true
  · rw [if_pos hexp]; rfl
  · rw [if_neg hexp]
    by_cases hskip : c.source = "api" ∧ ¬isAuth = true
    · rw [if_pos hskip]; rfl
    · rw [if_neg hskip]
      cases hval : validatePackStructure c.packData with
      | error e => rw [hval] at hv; exact absurd hv (by simp [exceptIsOk])
      | ok _ =>
        dsimp only
        by_cases hapi : c.source = "api"
        · rw [if_pos hapi]
          by_cases hauth : isAuth = true
          · rw [if_pos hauth]; rfl
          · rw [if_neg hauth]; rfl
        · rw [if_neg hapi]
          by_cases hupl : c.source = "upload"
          · rw [if_pos hupl]; rfl
          · rw [if_neg hupl]; rfl

theorem cacheEntryStep_spec (now : Int) (isAuth : Bool) (pid : String) (c : CacheEntry)
    (s s2 : PMState) (h : cacheEntryStep now isAuth pid c s = some s2) :
    (s2.cachedPacks = if cacheExpired now c then
        s.cachedPacks.filter (fun e => ¬(e.1 = pid)) else s.cachedPacks)
    ∧ (isAuth = false → s2.securePacks = s.securePacks)
    ∧ (c.source = "api" → cacheExpired now c = false → isAuth = true →
        s2.securePacks = mapSet s.securePacks pid (stampedCategories c.packData))
    ∧ (∀ k, ¬(k = pid) → mapLookup s2.securePacks k = mapLookup s.securePacks k) := by
  unfold cacheEntryStep at h
  by_cases hexp : cacheExpired now c = true
  · rw [if_pos hexp] at h
    have hs2 : s2 = removeCachedPack pid s := (Option.some.inj h).symm
    subst hs2
    exact ⟨by rw [if_pos hexp]; rfl, fun _ => rfl,
      fun _ hne _ => absurd hexp (by rw [hne]; exact Bool.false_ne_true),
      fun k _ => rfl⟩
  · rw [if_neg hexp] at h
    have hexp2 : (if cacheExpired now c = true then
        s.cachedPacks.filter (fun e => ¬(e.1 = pid)) else s.cachedPacks) = s.cachedPacks :=
      if_neg hexp
    by_cases hskip : c.source = "api" ∧ ¬isAuth = true
    · rw [if_pos hskip] at h
      have hs2 : s2 = s := (Option.some.inj h).symm
      subst hs2
      exact ⟨hexp2.symm, fun _ => rfl, fun _ _ hauth => absurd hauth hskip.2, fun k _ => rfl⟩
    · rw [if_neg hskip] at h
      cases hval : validatePackStructure c.packData with
      | error e => rw [hval] at h; exact absurd h (by simp)
      | ok _ =>
        rw [hval] at h
        dsimp only at h
        by_cases hapi : c.source = "api"
        · rw [if_pos hapi] at h
          by_cases hauth : isAuth = true
          · rw [if_pos hauth] at h
            have hs2 := (Option.some.inj h).symm
            subst hs2
            refine ⟨hexp2.symm, ?_, ?_, ?_⟩
            · intro hf; rw [hf] at hauth; exact absurd hauth (by simp)
            · intro _ _ _; rfl
            · intro k hk
              exact mapLookup_mapSet_other _ _ _ _ hk
          · rw [if_neg hauth] at h
            have hs2 : s2 = s := (Option.some.inj h).symm
            subst hs2
            exact ⟨hexp2.symm, fun _ => rfl, fun _ _ ha => absurd ha hauth, fun k _ => rfl⟩
        · rw [if_neg hapi] at h
          by_cases hupl : c.source = "upload"
          · rw [if_pos hupl] at h
            have hs2 := (Option.some.inj h).symm
            subst hs2
            exact ⟨hexp2.symm, fun _ => rfl, fun ha _ _ => absurd ha hapi, fun k _ => rfl⟩
          · rw [if_neg hupl] at h
            have hs2 : s2 = s := (Option.some.inj h).symm
            subst hs2
            exact ⟨hexp2.symm, fun _ => rfl, fun ha _ _ => absurd ha hapi, fun k _ => rfl⟩

theorem processCached_secure_unauth (now : Int) :
    ∀ (entries : List (String × CacheEntry)) (s : PMState),
      (processCachedEntries now false entries s).securePacks = s.securePacks
  | [], _ => rfl
  | (pid, c) :: rest, s => by
    rw [processCachedEntries]
    cases hstep : cacheEntryStep now false pid c s with
    | none => rfl
    | some s2 =>
      obtain ⟨h1, h2, h3, h4⟩ := cacheEntryStep_spec now false pid c s s2 hstep
      rw [processCached_secure_unauth now rest s2, h2 rfl]

theorem processCached_cache (now : Int) (isAuth : Bool) :
    ∀ (entries : List (String × CacheEntry)) (s : PMState),
      (∀ e ∈ entries, exceptIsOk (validatePackStructure e.2.packData) = true) →
      (processCachedEntries now isAuth entries s).cachedPacks
        = s.cachedPacks.filter
            (fun e => !(entries.any (fun p => decide (p.1 = e.1) && cacheExpired now p.2)))
  | [], s, _ => by simp [processCachedEntries]
  | (pid, c) :: rest, s, hv => by
    rw [processCachedEntries]
    cases hstep : cacheEntryStep now isAuth pid c s with
    | none =>
      have := cacheEntryStep_isSome now isAuth pid c s
        (hv (pid, c) (List.mem_cons_self _ _))
      rw [hstep] at this
      exact absurd this (by simp)
    | some s2 =>
      obtain ⟨h1, h2, h3, h4⟩ := cacheEntryStep_spec now isAuth pid c s s2 hstep
      rw [processCached_cache now isAuth rest s2
        (fun e he => hv e (List.mem_cons_of_mem _ he)), h1]
      by_cases hexp : cacheExpired now c = true
      · rw [if_pos hexp, List.filter_filter]
        apply List.filter_congr
        intro e he
        by_cases hpe : pid = e.1
        · simp [List.any_cons, hpe, hexp]
        · have hep : ¬(e.1 = pid) := fun hh => hpe hh.symm
          simp [List.any_cons, hpe, hep, hexp]
      · rw [if_neg hexp]
        apply List.filter_congr
        intro e he
        have hexpf : cacheExpired now c = false := by
          rw [Bool.not_eq_true] at hexp
          exact hexp
        simp [List.any_cons, hexpf]

theorem processCached_secure_keys (now : Int) (isAuth : Bool) (k : String) :
    ∀ (entries : List (String × CacheEntry)) (s : PMState),
      (∀ e ∈ entries, ¬(e.1 = k)) →
      mapLookup (processCachedEntries now isAuth entries s).securePacks k
        = mapLookup s.securePacks k
  | [], _, _ => rfl
  | (pid, c) :: rest, s, hk => by
    rw [processCachedEntries]
    cases hstep : cacheEntryStep now isAuth pid c s with
    | none => rfl
    | some s2 =>
      obtain ⟨h1, h2, h3, h4⟩ := cacheEntryStep_spec now isAuth pid c s s2 hstep
      rw [processCached_secure_keys now isAuth k rest s2
        (fun e he => hk e (List.mem_cons_of_mem _ he))]
      exact h4 k (fun hh => hk (pid, c) (List.mem_cons_self _ _) (hh.symm))

theorem processCached_secure_loads (now : Int) :
    ∀ (entries : List (String × CacheEntry)) (s : PMState),
      (∀ e ∈ entries, exceptIsOk (validatePackStructure e.2.packData) = true) →
      (entries.map Prod.fst).Nodup →
      ∀ pid c, (pid, c) ∈ entries → c.source = "api" → cacheExpired now c = false →
        mapLookup (processCachedEntries now true entries s).securePacks pid
          = some (stampedCategories c.packData)
  | [], _, _, _, pid, c, hmem, _, _ => absurd hmem (List.not_mem_nil _)
  | (pid2, c2) :: rest, s, hv, hnd, pid, c, hmem, hapi, hfresh => by
    rw [processCachedEntries]
    cases hstep : cacheEntryStep now true pid2 c2 s with
    | none =>
      have := cacheEntryStep_isSome now true pid2 c2 s
        (hv (pid2, c2) (List.mem_cons_self _ _))
      rw [hstep] at this
      exact absurd this (by simp)
    | some s2 =>
      obtain ⟨h1, h2, h3, h4⟩ := cacheEntryStep_spec now true pid2 c2 s s2 hstep
      simp only [List.map_cons, List.nodup_cons] at hnd
      rcases List.mem_cons.mp hmem with heq | hmem2
      · have hpid : pid = pid2 := congrArg Prod.fst heq
        have hc : c = c2 := congrArg Prod.snd heq
        subst hpid
        subst hc
        have hkeys : ∀ e ∈ rest, ¬(e.1 = pid) := by
          intro e he hek
          exact hnd.1 (hek ▸ List.mem_map_of_mem Prod.fst he)
        rw [processCached_secure_keys now true pid rest s2 hkeys,
          h3 hapi hfresh rfl]
        exact mapLookup_mapSet_self _ _ _
      · exact processCached_secure_loads now rest s2
          (fun e he => hv e (List.mem_cons_of_mem _ he)) hnd.2 pid c hmem2 hapi hfresh

/-- **C8 (amended).** For every cache state whose entries all pass structural
validation (an entry failing validation throws inside the loop's single
`try`, aborting processing of all later entries — hence the proviso) and
whose pack ids are distinct: `loadCachedPacks` evicts exactly the entries
whose `expiresAt` has passed; when unauthenticated it loads no api-sourced
entry (`securePacks` is untouched) but deletes none of them either, so
`getMergedQuestions(false)` draws only on builtin and upload packs while
every unexpired api cache entry survives and is loaded into `securePacks` by
a later authenticated `loadCachedPacks`. -/
theorem loadCachedPacks_spec (now now2 : Int) (s : PMState)
    (hv : ∀ e ∈ s.cachedPacks, exceptIsOk (validatePackStructure e.2.packData) = true)
    (hnd : (s.cachedPacks.map Prod.fst).Nodup) :
    (loadCachedPacks now false s).cachedPacks
        = s.cachedPacks.filter (fun e => !(cacheExpired now e.2))
    ∧ (loadCachedPacks now false s).securePacks = s.securePacks
    ∧ (∀ c, lookupD (getMergedQuestions false (loadCachedPacks now false s)) c
        = tableQuestions (loadCachedPacks now false s)
            (loadCachedPacks now false s).builtInPacks c
          ++ tableQuestions (loadCachedPacks now false s)
              (loadCachedPacks now false s).customPacks c)
    ∧ (∀ pid c, (pid, c) ∈ s.cachedPacks → c.source = "api" → cacheExpired now c = false →
        cacheExpired now2 c = false →
        (pid, c) ∈ (loadCachedPacks now false s).cachedPacks
        ∧ mapLookup (loadCachedPacks now2 true
            (loadCachedPacks now false s)).securePacks pid
            = some (stampedCategories c.packData)) := by
  have hinj := List.inj_on_of_nodup_map hnd
  have hcache : (loadCachedPacks now false s).cachedPacks
      = s.cachedPacks.filter (fun e => !(cacheExpired now e.2)) := by
    rw [loadCachedPacks, processCached_cache now false s.cachedPacks s hv]
    apply List.filter_congr
    intro e he
    by_cases hexp : cacheExpired now e.2 = true
    · have : s.cachedPacks.any (fun p => decide (p.1 = e.1) && cacheExpired now p.2) = true :=
        List.any_eq_true.mpr ⟨e, he, by simp [hexp]⟩
      rw [this, hexp]
    · have hexpf : cacheExpired now e.2 = false := by
        rw [Bool.not_eq_true] at hexp
        exact hexp
      have : s.cachedPacks.any (fun p => decide (p.1 = e.1) && cacheExpired now p.2) = false := by
        rw [Bool.eq_false_iff]
        intro hany
        obtain ⟨p, hp, hpp⟩ := List.any_eq_true.mp hany
        simp only [Bool.and_eq_true, decide_eq_true_eq] at hpp
        have hpe : p = e := hinj hp he hpp.1
        rw [hpe] at hpp
        rw [hpp.2] at hexpf
        exact absurd hexpf (by simp)
      rw [this, hexpf]
  have hsec : (loadCachedPacks now false s).securePacks = s.securePacks := by
    rw [loadCachedPacks]
    exact processCached_secure_unauth now s.cachedPacks s
  refine ⟨hcache, hsec, ?_, ?_⟩
  · intro c
    unfold getMergedQuestions
    simp only [Bool.false_eq_true, if_false]
    rw [mergeTable_lookupD, mergeTable_lookupD]
    simp [lookupD, mapLookup]
  · intro pid c hmem hapi hfresh hfresh2
    have hmem2 : (pid, c) ∈ (loadCachedPacks now false s).cachedPacks := by
      rw [hcache]
      exact List.mem_filter.mpr ⟨hmem, by simp [hfresh]⟩
    refine ⟨hmem2, ?_⟩
    have hsub : (loadCachedPacks now false s).cachedPacks.Sublist s.cachedPacks := by
      rw [hcache]
      exact List.filter_sublist _
    have hv2 : ∀ e ∈ (loadCachedPacks now false s).cachedPacks,
        exceptIsOk (validatePackStructure e.2.packData) = true :=
      fun e he => hv e (hsub.subset he)
    have hnd2 : ((loadCachedPacks now false s).cachedPacks.map Prod.fst).Nodup :=
      (hsub.map Prod.fst).nodup hnd
    rw [loadCachedPacks]
    exact processCached_secure_loads now2 (loadCachedPacks now false s).cachedPacks
      (loadCachedPacks now false s) hv2 hnd2 pid c hmem2 hapi hfresh2

/-- A structurally valid api pack payload (as `loadSecurePack` would cache). -/
def apiCachedPayload : PackPayload :=
  { packId := some "api-pack"
    packName := some "Api Pack"
    categories := some [("apicat", CategoryData.obj { questions := some [] })]
    metadata := none
    packSource := some "api" }

/-- Its cache entry, cached at 0 and expiring at 1000. -/
def apiCacheEntry : CacheEntry :=
  { packId := "api-pack"
    packData := apiCachedPayload
    source := "api"
    cachedAt := 0
    expiresAt := some 1000 }

/-- A resolver state whose cache holds exactly the api entry. -/
def c8WitnessState : PMState :=
  { resetPMState with cachedPacks := [("api-pack", apiCacheEntry)] }

/-- Witness for the amended C8: the concrete one-entry cache at time 500
(before expiry), logged out then logged in again at time 600. -/
theorem loadCachedPacks_spec_witness :
    ((∀ e ∈ c8WitnessState.cachedPacks,
        exceptIsOk (validatePackStructure e.2.packData) = true)
      ∧ (c8WitnessState.cachedPacks.map Prod.fst).Nodup)
    ∧ ((loadCachedPacks 500 false c8WitnessState).cachedPacks
          = c8WitnessState.cachedPacks.filter (fun e => !(cacheExpired 500 e.2))
      ∧ (loadCachedPacks 500 false c8WitnessState).securePacks
          = c8WitnessState.securePacks
      ∧ (∀ c, lookupD (getMergedQuestions false (loadCachedPacks 500 false c8WitnessState)) c
          = tableQuestions (loadCachedPacks 500 false c8WitnessState)
              (loadCachedPacks 500 false c8WitnessState).builtInPacks c
            ++ tableQuestions (loadCachedPacks 500 false c8WitnessState)
                (loadCachedPacks 500 false c8WitnessState).customPacks c)
      ∧ (∀ pid c, (pid, c) ∈ c8WitnessState.cachedPacks → c.source = "api" →
          cacheExpired 500 c = false → cacheExpired 600 c = false →
          (pid, c) ∈ (loadCachedPacks 500 false c8WitnessState).cachedPacks
          ∧ mapLookup (loadCachedPacks 600 true
              (loadCachedPacks 500 false c8WitnessState)).securePacks pid
              = some (stampedCategories c.packData))) :=
  ⟨⟨by decide, by decide⟩,
    loadCachedPacks_spec 500 600 c8WitnessState (by decide) (by decide)⟩

/-- A cache payload that fails structural validation (no `packId`/`packName`). -/
def invalidCachedPayload : PackPayload :=
  { packId := none
    packName := none
    categories := none
    metadata := none
    packSource := none }

/-- An upload-sourced cache entry wrapping the invalid payload (never expires). -/
def invalidUploadEntry : CacheEntry :=
  { packId := "badcache"
    packData := invalidCachedPayload
    source := "upload"
    cachedAt := 0
    expiresAt := none }

/-- A cache holding the invalid upload entry first, then the api entry, which
by time 5000 has expired. -/
def c8CexState : PMState :=
  { resetPMState with
    cachedPacks := [("badcache", invalidUploadEntry), ("api-pack", apiCacheEntry)] }

/-- **C8, counterexample.** The claim's eviction guarantee fails as stated:
the whole entry loop sits in a single `try`, so a cache entry whose pack data
fails validation aborts processing, and an api-sourced entry behind it whose
`expiresAt` has passed is neither dropped nor evicted — at time 5000 the
expired `api-pack` entry is still in the cache after `loadCachedPacks`. -/
theorem loadCachedPacks_abort_cex :
    cacheExpired 5000 apiCacheEntry = true
    ∧ apiCacheEntry.source = "api"
    ∧ exceptIsOk (validatePackStructure invalidUploadEntry.packData) = false
    ∧ mapLookup (loadCachedPacks 5000 false c8CexState).cachedPacks "api-pack"
        = some apiCacheEntry
    ∧ loadCachedPacks 5000 false c8CexState = c8CexState := by
  refine ⟨by decide, rfl, by decide, by decide, by decide⟩
